import Mathlib

/-!
Shallow embedding of the `vue-web-storage` storage engine
(`src/storage.ts` class `WebStorage`) and its codec utilities
(`utils.ts`: `encrypt`, `decrypt`, `isExpired`, `calculateExpires`,
`serialize`, `deserialize`, `deepClone`).

Modelling conventions:
* JavaScript strings are modelled as `List Nat` of UTF-16 code units
  (`charCodeAt` values); `String.fromCharCode` concatenation is list cons.
* JSON values are modelled by the inductive `Json`.  JSON numbers are
  modelled as integers (the repository only ever writes integer
  timestamps and user payloads into envelopes; IEEE floats are outside
  the model).  Objects are modelled as ordered association lists; the
  browser's `JSON.parse` keeps one binding per key, and every object the
  engine itself writes has distinct keys.
* The host platform functions `JSON.stringify` / `JSON.parse` are
  modelled by `jsonStringify` / `jsonParse` on the whitespace-free JSON
  fragment that `JSON.stringify` emits.  `jsonStringify` writes the five
  short control escapes of the platform in their equivalent uniform
  `\u00XX` form; `jsonParse` accepts both.  Fractional/exponent number
  forms and inter-token whitespace are not modelled (no envelope ever
  contains them).
* `btoa` / `atob` are modelled by `btoa` / `atob` below: real base64 on
  code units, with `none` standing for the `InvalidCharacterError` that
  `btoa` throws on a code unit above 255 and `atob` throws on input that
  is not base64.
* Exceptions are modelled by `Option`: a function that can throw returns
  `none` for the thrown case, and a `try/catch` in the source appears as
  a `match` on that `Option`.
* `Date.now()` is modelled by an explicit `now : Nat` argument.
* The underlying `Storage` object is modelled by `Store`, an ordered
  list of (full key, stored text) pairs; `key(i)` enumeration order is
  list order.
-/

/-- JSON values (the structured-clone / JSON data domain of the library). -/
inductive Json where
  | null : Json
  | boolean : Bool → Json
  | num : Int → Json
  | str : List Nat → Json
  | arr : List Json → Json
  | obj : List (List Nat × Json) → Json
  deriving Repr

mutual
/-- Size measure used to bound the fuel of the JSON reader. -/
def sizeJ : Json → Nat
  | .arr xs => 1 + sizeElems xs
  | .obj ms => 1 + sizeMems ms
  | _ => 1

def sizeElems : List Json → Nat
  | [] => 0
  | x :: xs => 1 + sizeJ x + sizeElems xs

def sizeMems : List (List Nat × Json) → Nat
  | [] => 0
  | m :: ms => 1 + sizeJ m.2 + sizeMems ms
end

/-- Decimal digits of a natural number, most significant first (fuelled;
`natToCodes` supplies enough fuel). Models the integer case of JS number
printing. -/
def natToCodesF : Nat → Nat → List Nat
  | 0, _ => []
  | fuel + 1, n => if n < 10 then [48 + n] else natToCodesF fuel (n / 10) ++ [48 + n % 10]

/-- Decimal code units of a natural number. -/
def natToCodes (n : Nat) : List Nat := natToCodesF (n + 1) n

/-- Decimal code units of an integer (minus sign for negatives), as
`JSON.stringify` prints integral numbers. -/
def intToCodes (n : Int) : List Nat :=
  if n < 0 then 45 :: natToCodes (-n).toNat else natToCodes n.toNat

/-- Lower-case hex digit code unit for a value below 16. -/
def hexDigit (d : Nat) : Nat := if d < 10 then 48 + d else 87 + d

/-- JSON string escaping of one code unit: `\"` and `\\` plus `\u00XX`
for control characters (the platform's short escapes are modelled in the
equivalent `\u00XX` form). -/
def escapeCode (c : Nat) : List Nat :=
  if c = 34 then [92, 34]
  else if c = 92 then [92, 92]
  else if c < 32 then [92, 117, 48, 48, hexDigit (c / 16), hexDigit (c % 16)]
  else [c]

/-- JSON string escaping of a code-unit sequence. -/
def escapeStr : List Nat → List Nat
  | [] => []
  | c :: cs => escapeCode c ++ escapeStr cs

mutual
/-- Model of `JSON.stringify` (no whitespace, members in order). -/
def jsonStringify : Json → List Nat
  | .null => [110, 117, 108, 108]
  | .boolean true => [116, 114, 117, 101]
  | .boolean false => [102, 97, 108, 115, 101]
  | .num n => intToCodes n
  | .str s => 34 :: escapeStr s ++ [34]
  | .arr xs => 91 :: stringifyElems xs ++ [93]
  | .obj ms => 123 :: stringifyMems ms ++ [125]

def stringifyElems : List Json → List Nat
  | [] => []
  | [x] => jsonStringify x
  | x :: xs => jsonStringify x ++ 44 :: stringifyElems xs

def stringifyMems : List (List Nat × Json) → List Nat
  | [] => []
  | [(k, v)] => 34 :: escapeStr k ++ [34, 58] ++ jsonStringify v
  | (k, v) :: ms => 34 :: escapeStr k ++ [34, 58] ++ jsonStringify v ++ 44 :: stringifyMems ms
end

/-- Numeric value of a hex digit code unit (JSON `\uXXXX` escapes). -/
def hexVal (c : Nat) : Option Nat :=
  if 48 ≤ c ∧ c ≤ 57 then some (c - 48)
  else if 97 ≤ c ∧ c ≤ 102 then some (c - 87)
  else if 65 ≤ c ∧ c ≤ 70 then some (c - 55)
  else none

/-- Is the code unit a decimal digit? -/
def isDigitCode (c : Nat) : Bool := 48 ≤ c ∧ c ≤ 57

/-- Reads a maximal run of decimal digits into an accumulator. -/
def parseNumGo : Nat → List Nat → Nat × List Nat
  | acc, [] => (acc, [])
  | acc, c :: rest =>
    if isDigitCode c then parseNumGo (acc * 10 + (c - 48)) rest else (acc, c :: rest)

/-- Reads a nonempty run of decimal digits. -/
def parseNum : List Nat → Option (Nat × List Nat)
  | [] => none
  | c :: rest => if isDigitCode c then some (parseNumGo (c - 48) rest) else none

/-- Reads a JSON string body after the opening quote, up to and through
the closing quote. -/
def parseStrBody : List Nat → Option (List Nat × List Nat)
  | [] => none
  | c :: rest =>
    if c = 34 then some ([], rest)
    else if c = 92 then
      match rest with
      | [] => none
      | e :: r =>
        if e = 34 then (parseStrBody r).map (fun p => (34 :: p.1, p.2))
        else if e = 92 then (parseStrBody r).map (fun p => (92 :: p.1, p.2))
        else if e = 47 then (parseStrBody r).map (fun p => (47 :: p.1, p.2))
        else if e = 98 then (parseStrBody r).map (fun p => (8 :: p.1, p.2))
        else if e = 116 then (parseStrBody r).map (fun p => (9 :: p.1, p.2))
        else if e = 110 then (parseStrBody r).map (fun p => (10 :: p.1, p.2))
        else if e = 102 then (parseStrBody r).map (fun p => (12 :: p.1, p.2))
        else if e = 114 then (parseStrBody r).map (fun p => (13 :: p.1, p.2))
        else if e = 117 then
          match r with
          | h1 :: h2 :: h3 :: h4 :: r2 =>
            match hexVal h1, hexVal h2, hexVal h3, hexVal h4 with
            | some a, some b, some c2, some d =>
              (parseStrBody r2).map (fun p => ((((a * 16 + b) * 16 + c2) * 16 + d) :: p.1, p.2))
            | _, _, _, _ => none
          | _ => none
        else none
    else if c < 32 then none
    else (parseStrBody rest).map (fun p => (c :: p.1, p.2))

/-- Expects a literal continuation (used for `null` / `true` / `false`). -/
def parseLit (lit rest : List Nat) : Option (List Nat) :=
  if lit.isPrefixOf rest then some (rest.drop lit.length) else none

mutual
/-- Model of `JSON.parse` on the whitespace-free fragment: one JSON
value, returning the remaining input (fuelled recursion). -/
def parseVal : Nat → List Nat → Option (Json × List Nat)
  | 0, _ => none
  | fuel + 1, input =>
    match input with
    | [] => none
    | c :: rest =>
      if c = 110 then (parseLit [117, 108, 108] rest).map (fun r => (.null, r))
      else if c = 116 then (parseLit [114, 117, 101] rest).map (fun r => (.boolean true, r))
      else if c = 102 then (parseLit [97, 108, 115, 101] rest).map (fun r => (.boolean false, r))
      else if c = 34 then (parseStrBody rest).map (fun p => (.str p.1, p.2))
      else if c = 91 then
        if rest.head? = some 93 then some (.arr [], rest.tail)
        else (parseElems fuel rest).map (fun p => (.arr p.1, p.2))
      else if c = 123 then
        if rest.head? = some 125 then some (.obj [], rest.tail)
        else (parseMems fuel rest).map (fun p => (.obj p.1, p.2))
      else if c = 45 then (parseNum rest).map (fun p => (.num (-(p.1 : Int)), p.2))
      else if isDigitCode c then (parseNum (c :: rest)).map (fun p => (.num (p.1 : Int), p.2))
      else none

def parseElems : Nat → List Nat → Option (List Json × List Nat)
  | 0, _ => none
  | fuel + 1, input =>
    match parseVal fuel input with
    | none => none
    | some (v, r) =>
      match r with
      | 44 :: r2 => (parseElems fuel r2).map (fun p => (v :: p.1, p.2))
      | 93 :: r2 => some ([v], r2)
      | _ => none

def parseMems : Nat → List Nat → Option (List (List Nat × Json) × List Nat)
  | 0, _ => none
  | fuel + 1, input =>
    match input with
    | 34 :: r =>
      match parseStrBody r with
      | none => none
      | some (k, r1) =>
        match r1 with
        | 58 :: r2 =>
          match parseVal fuel r2 with
          | none => none
          | some (v, r3) =>
            match r3 with
            | 44 :: r4 => (parseMems fuel r4).map (fun p => ((k, v) :: p.1, p.2))
            | 125 :: r4 => some ([(k, v)], r4)
            | _ => none
        | _ => none
    | _ => none
end

/-- Model of `JSON.parse` on a whole text: succeeds only if the text is
exactly one JSON value; `none` models the thrown `SyntaxError`. -/
def jsonParse (s : List Nat) : Option Json :=
  match parseVal (s.length + 1) s with
  | some (v, []) => some v
  | _ => none

/-- Base64 character for a 6-bit value (the `btoa` alphabet). -/
def sixToChar (i : Nat) : Nat :=
  if i < 26 then 65 + i
  else if i < 52 then 71 + i
  else if i < 62 then i - 4
  else if i = 62 then 43
  else 47

/-- Inverse of `sixToChar`; `none` on a character outside the alphabet. -/
def charToSix (c : Nat) : Option Nat :=
  if 65 ≤ c ∧ c ≤ 90 then some (c - 65)
  else if 97 ≤ c ∧ c ≤ 122 then some (c - 71)
  else if 48 ≤ c ∧ c ≤ 57 then some (c + 4)
  else if c = 43 then some 62
  else if c = 47 then some 63
  else none

/-- Base64 encoding of a byte sequence, 3 bytes per 4 characters with
`=` padding. -/
def btoaChunks : List Nat → List Nat
  | [] => []
  | [a] => [sixToChar (a / 4), sixToChar (a % 4 * 16), 61, 61]
  | [a, b] => [sixToChar (a / 4), sixToChar (a % 4 * 16 + b / 16), sixToChar (b % 16 * 4), 61]
  | a :: b :: c :: rest =>
    sixToChar (a / 4) :: sixToChar (a % 4 * 16 + b / 16) ::
      sixToChar (b % 16 * 4 + c / 64) :: sixToChar (c % 64) :: btoaChunks rest

/-- Model of the platform `btoa`: fails (throws `InvalidCharacterError`)
on a code unit above 255, else base64-encodes. -/
def btoa (s : List Nat) : Option (List Nat) :=
  if s.all (fun c => c < 256) then some (btoaChunks s) else none

/-- Base64 decoding, 4 characters per 3 bytes, accepting the two padded
final-chunk forms and the unpadded short forms. -/
def atobGo : List Nat → Option (List Nat)
  | [] => some []
  | [w, x] =>
    match charToSix w, charToSix x with
    | some sw, some sx => some [sw * 4 + sx / 16]
    | _, _ => none
  | [w, x, 61, 61] =>
    match charToSix w, charToSix x with
    | some sw, some sx => some [sw * 4 + sx / 16]
    | _, _ => none
  | [w, x, y] =>
    match charToSix w, charToSix x, charToSix y with
    | some sw, some sx, some sy => some [sw * 4 + sx / 16, sx % 16 * 16 + sy / 4]
    | _, _, _ => none
  | [w, x, y, 61] =>
    match charToSix w, charToSix x, charToSix y with
    | some sw, some sx, some sy => some [sw * 4 + sx / 16, sx % 16 * 16 + sy / 4]
    | _, _, _ => none
  | w :: x :: y :: z :: rest =>
    match charToSix w, charToSix x, charToSix y, charToSix z with
    | some sw, some sx, some sy, some sz =>
      (atobGo rest).map
        (fun bs => (sw * 4 + sx / 16) :: (sx % 16 * 16 + sy / 4) :: (sy % 4 * 64 + sz) :: bs)
    | _, _, _, _ => none
  | _ => none

/-- Model of the platform `atob`: `none` models the thrown
`InvalidCharacterError` on non-base64 input. -/
def atob (s : List Nat) : Option (List Nat) := atobGo s

/-- XOR keystream starting at position `i`: each code unit is XORed with
`key.charCodeAt(i % key.length)`.  For the empty key, `i % 0 = i` is out
of range and the key code is 0, matching the JS coercion of `NaN` to 0 in
`^`. -/
def xorFrom (key : List Nat) : Nat → List Nat → List Nat
  | _, [] => []
  | i, c :: cs => (c ^^^ key.getD (i % key.length) 0) :: xorFrom key (i + 1) cs

/-- The XOR transform both `encrypt` and `decrypt` apply (utils.ts). -/
def xorTransform (text key : List Nat) : List Nat := xorFrom key 0 text

/-- utils.ts `encrypt`: XOR keystream then `btoa`.  `none` models the
uncaught `btoa` exception (the function has no try/catch). -/
def encrypt (text key : List Nat) : Option (List Nat) := btoa (xorTransform text key)

/-- utils.ts `decrypt`: `atob` then XOR keystream; its `try/catch`
returns the input text unchanged when `atob` throws. -/
def decrypt (encryptedText key : List Nat) : List Nat :=
  match atob encryptedText with
  | none => encryptedText
  | some text => xorTransform text key

/-- utils.ts `serialize`: `JSON.stringify`, then `encrypt` when
requested.  `none` models the uncaught `encrypt` exception. -/
def serialize (data : Json) (shouldEncrypt : Bool) (encryptKey : List Nat) : Option (List Nat) :=
  let jsonString := jsonStringify data
  if shouldEncrypt then encrypt jsonString encryptKey else some jsonString

/-- utils.ts `deserialize`: `decrypt` when configured, then
`JSON.parse`; its `try/catch` maps any failure to `null` (`none`). -/
def deserialize (data : List Nat) (encrypted : Bool) (encryptKey : List Nat) : Option Json :=
  let jsonString := if encrypted then decrypt data encryptKey else data
  jsonParse jsonString

mutual
/-- utils.ts `deepClone` on the JSON data domain: primitives returned
as-is, arrays and objects rebuilt recursively (`Date` values cannot occur
in this domain). -/
def deepClone : Json → Json
  | .null => .null
  | .boolean b => .boolean b
  | .num n => .num n
  | .str s => .str s
  | .arr xs => .arr (deepCloneElems xs)
  | .obj ms => .obj (deepCloneMems ms)

def deepCloneElems : List Json → List Json
  | [] => []
  | x :: xs => deepClone x :: deepCloneElems xs

def deepCloneMems : List (List Nat × Json) → List (List Nat × Json)
  | [] => []
  | (k, v) :: ms => (k, deepClone v) :: deepCloneMems ms
end

/-- utils.ts `isExpired` on the typed `number | null` field:
`null` never expires, otherwise strict `now > expires`. -/
def isExpired (now : Nat) (expires : Option Int) : Bool :=
  match expires with
  | none => false
  | some e => decide (e < (now : Int))

/-- utils.ts `calculateExpires`: `undefined` gives `null` (never),
otherwise `Date.now() + expires`. -/
def calculateExpires (now : Nat) (expires : Option Nat) : Option Int :=
  match expires with
  | none => none
  | some e => some ((now : Int) + e)

/-- types.ts `StorageItem`: the persisted envelope.  `expires` is
`number | null` (`none` is the "never" marker), `created` a timestamp. -/
structure StorageItem where
  value : Json
  expires : Option Int
  created : Nat

/-- Code units of the field name `value`. -/
def valueKey : List Nat := [118, 97, 108, 117, 101]

/-- Code units of the field name `expires`. -/
def expiresKey : List Nat := [101, 120, 112, 105, 114, 101, 115]

/-- Code units of the field name `created`. -/
def createdKey : List Nat := [99, 114, 101, 97, 116, 101, 100]

/-- The JSON object `JSON.stringify` sees for an envelope: the object
literal `{value, expires, created}` in declaration order. -/
def itemToJson (it : StorageItem) : Json :=
  .obj [(valueKey, it.value),
        (expiresKey, match it.expires with | none => .null | some e => .num e),
        (createdKey, .num (it.created : Int))]

/-- The resolved engine options (`Required<StorageOptions>` in
storage.ts; the `type` field only selects which `Storage` handle is used
and is represented by the `Store` argument itself). -/
structure StorageConfig where
  defaultExpires : Nat
  keyPrefix : List Nat
  encrypt : Bool
  encryptKey : List Nat

/-- types.ts `SetOptions`: per-call overrides for `set`. -/
structure SetOptions where
  expires : Option Nat := none
  encrypt : Option Bool := none

/-- One `emit(type, data)` call: event kind plus its key/value payload. -/
inductive Ev where
  | set (key : List Nat) (value : Json)
  | get (key : List Nat) (value : Json)
  | remove (key : List Nat)
  | clear
  | expired (key : Option (List Nat))

/-- The underlying `Storage` namespace: ordered (full key, text) pairs. -/
abbrev Store := List (List Nat × List Nat)

/-- `Storage.getItem`: the binding of a key, if any. -/
def getItem (st : Store) (k : List Nat) : Option (List Nat) :=
  (st.find? (fun p => p.1 == k)).map (fun p => p.2)

/-- `Storage.setItem`: replace an existing binding in place, else append. -/
def setItem (st : Store) (k v : List Nat) : Store :=
  if st.any (fun p => p.1 == k) then
    st.map (fun p => if p.1 == k then (k, v) else p)
  else st ++ [(k, v)]

/-- `Storage.removeItem`. -/
def removeItem (st : Store) (k : List Nat) : Store :=
  st.filter (fun p => !(p.1 == k))

/-- storage.ts `getFullKey`: prefix concatenation. -/
def getFullKey (cfg : StorageConfig) (key : List Nat) : List Nat :=
  cfg.keyPrefix ++ key

/-- The dynamic check `Date.now() > e` on an `expires` field value read
back from JSON: only a numeric field can compare greater (for `null` the
comparison is false, as in JS). -/
def jsExpiredVal (e : Json) (now : Nat) : Bool :=
  match e with
  | .num x => decide (x < (now : Int))
  | _ => false

/-- `isExpired(item.expires)` where the field may also be absent
(`undefined`): `Date.now() > undefined` is false in JS. -/
def jsExpiredField (e : Option Json) (now : Nat) : Bool :=
  match e with
  | none => false
  | some v => jsExpiredVal v now

/-- First binding of a field in a parsed object (`item.field`). -/
def getField (ms : List (List Nat × Json)) (k : List Nat) : Option Json :=
  (ms.find? (fun p => p.1 == k)).map (fun p => p.2)

/-- The duration argument `set` passes to `calculateExpires`:
`(options.expires ?? this.options.defaultExpires) || undefined` — the
per-call value, else the configured default, with 0 coerced to
`undefined` by `||`. -/
def resolvedDuration (cfg : StorageConfig) (opts : SetOptions) : Option Nat :=
  let r := opts.expires.getD cfg.defaultExpires
  if r = 0 then none else some r

/-- The envelope `set` builds: cloned value, computed expiry, creation
time `Date.now()`. -/
def mkEnvelope (cfg : StorageConfig) (opts : SetOptions) (now : Nat) (v : Json) : StorageItem :=
  { value := deepClone v
    expires := calculateExpires now (resolvedDuration cfg opts)
    created := now }

namespace WebStorage

/-- storage.ts `set`: builds the envelope, serializes it with the
resolved obfuscation flag, writes it under the full key and emits `set`
with the original value.  A serialization failure is caught and reported
as `false` (the model `Store` itself cannot fail, so the quota branch of
the same catch is not represented). -/
def set (cfg : StorageConfig) (now : Nat) (st : Store) (key : List Nat) (value : Json)
    (options : SetOptions) : Bool × Store × List Ev :=
  let item := mkEnvelope cfg options now value
  let shouldEncrypt := options.encrypt.getD cfg.encrypt
  match serialize (itemToJson item) shouldEncrypt cfg.encryptKey with
  | none => (false, st, [])
  | some data => (true, setItem st (getFullKey cfg key) data, [Ev.set key value])

/-- storage.ts `get`: absent or empty text gives the default; an
undecodable text, a non-object, or an object without a `value` field
gives the default; an expired envelope is removed (emitting `remove`
from the nested `remove` call, then `expired`) and gives the default;
otherwise `get` is emitted with the stored value and a deep clone of it
is returned.  `none` as first component is JS `null`. -/
def get (cfg : StorageConfig) (now : Nat) (st : Store) (key : List Nat)
    (defaultValue : Option Json) : Option Json × Store × List Ev :=
  match getItem st (getFullKey cfg key) with
  | none => (defaultValue, st, [])
  | some data =>
    if data = [] then (defaultValue, st, [])
    else
      match deserialize data cfg.encrypt cfg.encryptKey with
      | none => (defaultValue, st, [])
      | some item =>
        match item with
        | .obj ms =>
          match getField ms valueKey with
          | none => (defaultValue, st, [])
          | some v =>
            if jsExpiredField (getField ms expiresKey) now then
              (defaultValue, removeItem st (getFullKey cfg key),
               [Ev.remove key, Ev.expired (some key)])
            else
              (some (deepClone v), st, [Ev.get key v])
        | _ => (defaultValue, st, [])

/-- storage.ts `has`: present, decodable as an object carrying an
`expires` field, and not expired.  An expired entry is deleted through
`remove` (which emits `remove`). -/
def has (cfg : StorageConfig) (now : Nat) (st : Store) (key : List Nat) :
    Bool × Store × List Ev :=
  match getItem st (getFullKey cfg key) with
  | none => (false, st, [])
  | some data =>
    if data = [] then (false, st, [])
    else
      match deserialize data cfg.encrypt cfg.encryptKey with
      | none => (false, st, [])
      | some item =>
        match item with
        | .obj ms =>
          match getField ms expiresKey with
          | none => (false, st, [])
          | some e =>
            if jsExpiredVal e now then
              (false, removeItem st (getFullKey cfg key), [Ev.remove key])
            else (true, st, [])
        | _ => (false, st, [])

/-- storage.ts `remove`: delete the full key unconditionally, emit
`remove`, report success. -/
def remove (cfg : StorageConfig) (st : Store) (key : List Nat) : Bool × Store × List Ev :=
  (true, removeItem st (getFullKey cfg key), [Ev.remove key])

/-- storage.ts `clear`: collect every stored key starting with the
configured prefix, delete them, emit one `clear`. -/
def clear (cfg : StorageConfig) (st : Store) : Bool × Store × List Ev :=
  (true, st.filter (fun p => !(cfg.keyPrefix.isPrefixOf p.1)), [Ev.clear])

/-- Does `clearExpired` delete this entry: prefixed, nonempty text,
decodes to an object carrying an `expires` field, and expired. -/
def expiredEntry (cfg : StorageConfig) (now : Nat) (p : List Nat × List Nat) : Bool :=
  cfg.keyPrefix.isPrefixOf p.1 && !(p.2 == []) &&
    (match deserialize p.2 cfg.encrypt cfg.encryptKey with
     | some (.obj ms) =>
       match getField ms expiresKey with
       | some e => jsExpiredVal e now
       | none => false
     | _ => false)

/-- storage.ts `clearExpired`: sweep every prefixed entry, delete the
expired ones, return the count, emit one bulk `expired` if any. -/
def clearExpired (cfg : StorageConfig) (now : Nat) (st : Store) : Nat × Store × List Ev :=
  let cleared := (st.filter (fun p => expiredEntry cfg now p)).length
  (cleared, st.filter (fun p => !(expiredEntry cfg now p)),
   if cleared > 0 then [Ev.expired none] else [])

/-- types.ts `StorageStats`. -/
structure Stats where
  total : Nat
  expired : Nat
  valid : Nat
  usedBytes : Nat
  deriving Repr, DecidableEq

/-- Componentwise sum of two stats records. -/
def statsAdd (a b : Stats) : Stats :=
  ⟨a.total + b.total, a.expired + b.expired, a.valid + b.valid, a.usedBytes + b.usedBytes⟩

/-- The contribution of one stored entry to `getStats`: skipped unless
prefixed with nonempty text; counted expired/valid by the `expires`
field when it decodes to an object carrying one, else valid. -/
def entryStats (cfg : StorageConfig) (now : Nat) (p : List Nat × List Nat) : Stats :=
  if cfg.keyPrefix.isPrefixOf p.1 ∧ p.2 ≠ [] then
    let used := p.1.length + p.2.length
    match deserialize p.2 cfg.encrypt cfg.encryptKey with
    | some (.obj ms) =>
      match getField ms expiresKey with
      | some e => if jsExpiredVal e now then ⟨1, 1, 0, used⟩ else ⟨1, 0, 1, used⟩
      | none => ⟨1, 0, 1, used⟩
    | _ => ⟨1, 0, 1, used⟩
  else ⟨0, 0, 0, 0⟩

/-- storage.ts `getStats`: fold the per-entry contributions over the
namespace. -/
def getStats (cfg : StorageConfig) (now : Nat) (st : Store) : Stats :=
  st.foldr (fun p acc => statsAdd (entryStats cfg now p) acc) ⟨0, 0, 0, 0⟩

end WebStorage

/-- True when the text does not begin with a decimal digit (a number
token before it cannot swallow it). -/
def noDigitHead : List Nat → Bool
  | [] => true
  | c :: _ => !isDigitCode c

mutual
/-- All string code units (values and object keys) below 256: exactly
the JSON values whose serialized text `btoa` accepts. -/
def latin1 : Json → Bool
  | .null => true
  | .boolean _ => true
  | .num _ => true
  | .str s => s.all (fun c => c < 256)
  | .arr xs => latin1Elems xs
  | .obj ms => latin1Mems ms

def latin1Elems : List Json → Bool
  | [] => true
  | x :: xs => latin1 x && latin1Elems xs

def latin1Mems : List (List Nat × Json) → Bool
  | [] => true
  | (k, v) :: ms => k.all (fun c => c < 256) && latin1 v && latin1Mems ms
end

/-! Lemmas about the JSON codec. -/

theorem parseLit_self (lit r : List Nat) : parseLit lit (lit ++ r) = some r := by
  have hp : lit.isPrefixOf (lit ++ r) = true := by
    rw [List.isPrefixOf_iff_prefix]; exact List.prefix_append lit r
  simp [parseLit, hp]

theorem natToCodesF_digits (fuel : Nat) : ∀ n, ∀ c ∈ natToCodesF fuel n, 48 ≤ c ∧ c ≤ 57 := by
  induction fuel with
  | zero => intro n c hc; simp [natToCodesF] at hc
  | succ fuel ih =>
    intro n c hc
    by_cases h : n < 10
    · simp [natToCodesF, h] at hc
      omega
    · simp [natToCodesF, h] at hc
      rcases hc with hc | hc
      · exact ih _ c hc
      · omega

theorem natToCodesF_cons (fuel : Nat) : ∀ n, n < fuel →
    ∃ c cs, natToCodesF fuel n = c :: cs ∧ 48 ≤ c ∧ c ≤ 57 := by
  induction fuel with
  | zero => intro n h; omega
  | succ fuel ih =>
    intro n h
    by_cases h10 : n < 10
    · exact ⟨48 + n, [], by simp [natToCodesF, h10], by omega, by omega⟩
    · obtain ⟨c, cs, heq, hc⟩ := ih (n / 10) (by omega)
      exact ⟨c, cs ++ [48 + n % 10], by simp [natToCodesF, h10, heq], hc⟩

theorem parseNumGo_natToCodesF (fuel : Nat) : ∀ n acc rest, n < fuel →
    parseNumGo acc (natToCodesF fuel n ++ rest) =
      parseNumGo (acc * 10 ^ (natToCodesF fuel n).length + n) rest := by
  induction fuel with
  | zero => intro n acc rest h; omega
  | succ fuel ih =>
    intro n acc rest h
    by_cases h10 : n < 10
    · have hd : isDigitCode (48 + n) = true := by simp [isDigitCode]; omega
      simp [natToCodesF, h10, parseNumGo, hd]
    · obtain ⟨c, cs, heq, hc1, hc2⟩ := natToCodesF_cons fuel (n / 10) (by omega)
      have hrec := ih (n / 10) acc ((48 + n % 10) :: rest) (by omega)
      have hd : isDigitCode (48 + n % 10) = true := by simp [isDigitCode]; omega
      simp only [natToCodesF, if_neg h10, List.append_assoc, List.cons_append,
        List.nil_append] at hrec ⊢
      rw [hrec]
      simp only [parseNumGo, hd, if_pos]
      have hlen : (natToCodesF fuel (n / 10) ++ [48 + n % 10]).length =
          (natToCodesF fuel (n / 10)).length + 1 := by simp
      rw [hlen]
      congr 1
      have : 48 + n % 10 - 48 = n % 10 := by omega
      rw [this, pow_succ]
      have hmod : n / 10 * 10 + n % 10 = n := by omega
      ring_nf
      omega

theorem parseNumGo_stop (n : Nat) (rest : List Nat) (hr : noDigitHead rest = true) :
    parseNumGo n rest = (n, rest) := by
  cases rest with
  | nil => simp [parseNumGo]
  | cons c r =>
    simp [noDigitHead] at hr
    simp [parseNumGo, hr]

theorem parseNum_natToCodes (n : Nat) (rest : List Nat) (hr : noDigitHead rest = true) :
    parseNum (natToCodes n ++ rest) = some (n, rest) := by
  obtain ⟨c, cs, heq, hc1, hc2⟩ := natToCodesF_cons (n + 1) n (by omega)
  have hd : isDigitCode c = true := by simp [isDigitCode]; omega
  have h1 : parseNumGo 0 (natToCodes n ++ rest) = parseNumGo n rest := by
    have := parseNumGo_natToCodesF (n + 1) n 0 rest (by omega)
    simpa [natToCodes] using this
  have h2 : parseNumGo 0 (natToCodes n ++ rest) = parseNumGo (c - 48) (cs ++ rest) := by
    rw [natToCodes, heq]
    simp [parseNumGo, hd]
  rw [natToCodes, heq]
  simp only [List.cons_append, parseNum, hd, if_pos]
  rw [← h2, h1, parseNumGo_stop n rest hr]

theorem hexVal_hexDigit : ∀ d < 16, hexVal (hexDigit d) = some d := by decide

theorem parseStrBody_escape (s : List Nat) : ∀ rest,
    parseStrBody (escapeStr s ++ 34 :: rest) = some (s, rest) := by
  induction s with
  | nil => intro rest; rw [escapeStr, List.nil_append, parseStrBody.eq_def]; simp
  | cons c cs ih =>
    intro rest
    by_cases h34 : c = 34
    · subst h34
      rw [escapeStr, escapeCode, if_pos rfl, List.append_assoc, List.cons_append,
        List.cons_append, List.nil_append, parseStrBody.eq_def]
      simp [ih]
    · by_cases h92 : c = 92
      · subst h92
        rw [escapeStr, escapeCode, if_neg (by omega), if_pos rfl, List.append_assoc,
          List.cons_append, List.cons_append, List.nil_append, parseStrBody.eq_def]
        simp [ih]
      · by_cases hlt : c < 32
        · have hhi : hexVal (hexDigit (c / 16)) = some (c / 16) :=
            hexVal_hexDigit _ (by omega)
          have hlo : hexVal (hexDigit (c % 16)) = some (c % 16) :=
            hexVal_hexDigit _ (by omega)
          rw [escapeStr, escapeCode, if_neg h34, if_neg h92, if_pos hlt, List.append_assoc]
          simp only [List.cons_append, List.nil_append]
          rw [parseStrBody.eq_def]
          simp only [reduceIte]
          simp only [show hexVal 48 = some 0 from rfl, hhi, hlo]
          simp [ih]
          omega
        · rw [escapeStr, escapeCode, if_neg h34, if_neg h92, if_neg hlt,
            List.cons_append, List.nil_append, parseStrBody.eq_def]
          simp [h34, h92, hlt, ih]

theorem sizeJ_pos (x : Json) : 1 ≤ sizeJ x := by
  cases x <;> simp [sizeJ]

theorem jsonStringify_cons (x : Json) :
    ∃ c cs, jsonStringify x = c :: cs ∧ c ≠ 93 ∧ c ≠ 125 := by
  cases x with
  | null => exact ⟨110, _, rfl, by omega, by omega⟩
  | boolean b =>
    cases b with
    | false => exact ⟨102, _, rfl, by omega, by omega⟩
    | true => exact ⟨116, _, rfl, by omega, by omega⟩
  | num n =>
    by_cases hn : n < 0
    · exact ⟨45, natToCodes (-n).toNat, by rw [jsonStringify, intToCodes, if_pos hn],
        by omega, by omega⟩
    · obtain ⟨c, cs, heq, hc1, hc2⟩ := natToCodesF_cons (n.toNat + 1) n.toNat (by omega)
      refine ⟨c, cs, ?_, by omega, by omega⟩
      rw [jsonStringify, intToCodes, if_neg hn, natToCodes, heq]
  | str s => exact ⟨34, _, rfl, by omega, by omega⟩
  | arr xs => exact ⟨91, _, rfl, by omega, by omega⟩
  | obj ms => exact ⟨123, _, rfl, by omega, by omega⟩


theorem parseVal_succ_cons (f c : Nat) (rest : List Nat) : parseVal (f + 1) (c :: rest) =
    (if c = 110 then (parseLit [117, 108, 108] rest).map (fun r => (.null, r))
      else if c = 116 then (parseLit [114, 117, 101] rest).map (fun r => (.boolean true, r))
      else if c = 102 then (parseLit [97, 108, 115, 101] rest).map (fun r => (.boolean false, r))
      else if c = 34 then (parseStrBody rest).map (fun p => (.str p.1, p.2))
      else if c = 91 then
        if rest.head? = some 93 then some (.arr [], rest.tail)
        else (parseElems f rest).map (fun p => (.arr p.1, p.2))
      else if c = 123 then
        if rest.head? = some 125 then some (.obj [], rest.tail)
        else (parseMems f rest).map (fun p => (.obj p.1, p.2))
      else if c = 45 then (parseNum rest).map (fun p => (.num (-(p.1 : Int)), p.2))
      else if isDigitCode c then (parseNum (c :: rest)).map (fun p => (.num (p.1 : Int), p.2))
      else none) := rfl

theorem parseElems_succ (f : Nat) (input : List Nat) : parseElems (f + 1) input =
    (match parseVal f input with
    | none => none
    | some (v, r) =>
      match r with
      | 44 :: r2 => (parseElems f r2).map (fun p => (v :: p.1, p.2))
      | 93 :: r2 => some ([v], r2)
      | _ => none) := rfl

theorem parseMems_succ (f : Nat) (tail : List Nat) : parseMems (f + 1) (34 :: tail) =
    (match parseStrBody tail with
      | none => none
      | some (kk, r1) =>
        match r1 with
        | 58 :: r2 =>
          match parseVal f r2 with
          | none => none
          | some (v, r3) =>
            match r3 with
            | 44 :: r4 => (parseMems f r4).map (fun p => ((kk, v) :: p.1, p.2))
            | 125 :: r4 => some ([(kk, v)], r4)
            | _ => none
        | _ => none) := rfl

theorem stringifyElems_cons (y : Json) (ys : List Json) :
    ∃ c cs, stringifyElems (y :: ys) = c :: cs ∧ c ≠ 93 ∧ c ≠ 125 := by
  obtain ⟨c, cs, heq, h1, h2⟩ := jsonStringify_cons y
  cases ys with
  | nil => exact ⟨c, cs, by rw [show stringifyElems [y] = jsonStringify y from rfl, heq], h1, h2⟩
  | cons z zs =>
    refine ⟨c, cs ++ (44 :: stringifyElems (z :: zs)), ?_, h1, h2⟩
    rw [show stringifyElems (y :: z :: zs) =
      jsonStringify y ++ 44 :: stringifyElems (z :: zs) from rfl, heq]
    simp

theorem stringifyMems_cons (m : List Nat × Json) (ms : List (List Nat × Json)) :
    ∃ t, stringifyMems (m :: ms) = 34 :: t := by
  obtain ⟨k, v⟩ := m
  cases ms with
  | nil => exact ⟨_, rfl⟩
  | cons m2 ms2 => exact ⟨_, rfl⟩

mutual
theorem parseVal_stringify : ∀ (x : Json) (fuel : Nat) (rest : List Nat), sizeJ x ≤ fuel →
    noDigitHead rest = true → parseVal fuel (jsonStringify x ++ rest) = some (x, rest)
  | .null, fuel, rest, hf, _ => by
    obtain ⟨f, rfl⟩ : ∃ f, fuel = f + 1 := ⟨fuel - 1, by have := sizeJ_pos .null; omega⟩
    rw [show jsonStringify Json.null ++ rest = 110 :: ([117, 108, 108] ++ rest) from rfl,
      parseVal_succ_cons, parseLit_self]
    simp
  | .boolean true, fuel, rest, hf, _ => by
    obtain ⟨f, rfl⟩ : ∃ f, fuel = f + 1 := ⟨fuel - 1, by have := sizeJ_pos (.boolean true); omega⟩
    rw [show jsonStringify (Json.boolean true) ++ rest =
      116 :: ([114, 117, 101] ++ rest) from rfl, parseVal_succ_cons, parseLit_self]
    simp
  | .boolean false, fuel, rest, hf, _ => by
    obtain ⟨f, rfl⟩ : ∃ f, fuel = f + 1 := ⟨fuel - 1, by have := sizeJ_pos (.boolean false); omega⟩
    rw [show jsonStringify (Json.boolean false) ++ rest =
      102 :: ([97, 108, 115, 101] ++ rest) from rfl, parseVal_succ_cons, parseLit_self]
    simp
  | .num n, fuel, rest, hf, hr => by
    obtain ⟨f, rfl⟩ : ∃ f, fuel = f + 1 := ⟨fuel - 1, by have := sizeJ_pos (.num n); omega⟩
    by_cases hn : n < 0
    · rw [show jsonStringify (Json.num n) ++ rest =
        45 :: (natToCodes (-n).toNat ++ rest) by rw [jsonStringify, intToCodes, if_pos hn]; simp,
        parseVal_succ_cons]
      rw [parseNum_natToCodes _ rest hr]
      have : ((-n).toNat : Int) = -n := Int.toNat_of_nonneg (by omega)
      simp [this]
    · obtain ⟨c, cs, heq, hc1, hc2⟩ := natToCodesF_cons (n.toNat + 1) n.toNat (by omega)
      have hinput : jsonStringify (.num n) ++ rest = c :: (cs ++ rest) := by
        rw [jsonStringify, intToCodes, if_neg hn, natToCodes, heq]; simp
      rw [hinput, parseVal_succ_cons]
      have hd : isDigitCode c = true := by simp [isDigitCode]; omega
      rw [if_neg (by omega), if_neg (by omega), if_neg (by omega), if_neg (by omega),
        if_neg (by omega), if_neg (by omega), if_neg (by omega), if_pos hd]
      have hback : c :: (cs ++ rest) = natToCodes n.toNat ++ rest := by
        rw [natToCodes, heq]; simp
      rw [hback, parseNum_natToCodes _ rest hr]
      have : (n.toNat : Int) = n := Int.toNat_of_nonneg (by omega)
      simp [this]
  | .str s, fuel, rest, hf, _ => by
    obtain ⟨f, rfl⟩ : ∃ f, fuel = f + 1 := ⟨fuel - 1, by have := sizeJ_pos (.str s); omega⟩
    have hinput : jsonStringify (.str s) ++ rest = 34 :: (escapeStr s ++ 34 :: rest) := by
      rw [jsonStringify]; simp
    rw [hinput, parseVal_succ_cons, parseStrBody_escape]
    simp
  | .arr [], fuel, rest, hf, _ => by
    obtain ⟨f, rfl⟩ : ∃ f, fuel = f + 1 := ⟨fuel - 1, by have := sizeJ_pos (.arr []); omega⟩
    rw [show jsonStringify (Json.arr []) ++ rest = 91 :: (93 :: rest) from rfl,
      parseVal_succ_cons]
    simp
  | .arr (y :: ys), fuel, rest, hf, _ => by
    obtain ⟨f, rfl⟩ : ∃ f, fuel = f + 1 := ⟨fuel - 1, by have := sizeJ_pos (.arr (y :: ys)); omega⟩
    obtain ⟨c, cs, heq, h93, _⟩ := stringifyElems_cons y ys
    have hinput : jsonStringify (.arr (y :: ys)) ++ rest =
        91 :: (stringifyElems (y :: ys) ++ 93 :: rest) := by
      rw [jsonStringify]; simp
    rw [hinput, parseVal_succ_cons]
    have hh : (stringifyElems (y :: ys) ++ 93 :: rest).head? = some c := by
      rw [heq]; rfl
    have hsz : sizeElems (y :: ys) ≤ f := by
      simp [sizeJ] at hf; omega
    rw [if_neg (by omega), if_neg (by omega), if_neg (by omega), if_neg (by omega),
      if_pos rfl, hh, if_neg (by simpa using h93), parseElems_stringify y ys f rest hsz]
    simp
  | .obj [], fuel, rest, hf, _ => by
    obtain ⟨f, rfl⟩ : ∃ f, fuel = f + 1 := ⟨fuel - 1, by have := sizeJ_pos (.obj []); omega⟩
    rw [show jsonStringify (Json.obj []) ++ rest = 123 :: (125 :: rest) from rfl,
      parseVal_succ_cons]
    simp
  | .obj (m :: ms2), fuel, rest, hf, _ => by
    obtain ⟨f, rfl⟩ : ∃ f, fuel = f + 1 :=
      ⟨fuel - 1, by have := sizeJ_pos (.obj (m :: ms2)); omega⟩
    obtain ⟨t, heq⟩ := stringifyMems_cons m ms2
    have hinput : jsonStringify (.obj (m :: ms2)) ++ rest =
        123 :: (stringifyMems (m :: ms2) ++ 125 :: rest) := by
      rw [jsonStringify]; simp
    rw [hinput, parseVal_succ_cons]
    have hh : (stringifyMems (m :: ms2) ++ 125 :: rest).head? = some 34 := by
      rw [heq]; rfl
    have hsz : sizeMems (m :: ms2) ≤ f := by
      simp [sizeJ] at hf; omega
    rw [if_neg (by omega), if_neg (by omega), if_neg (by omega), if_neg (by omega),
      if_neg (by omega), if_pos rfl, hh, if_neg (by simp),
      parseMems_stringify m ms2 f rest hsz]
    simp
termination_by x _ _ _ _ => sizeJ x
decreasing_by
  all_goals simp [sizeJ, sizeElems, sizeMems] <;> omega

theorem parseElems_stringify : ∀ (y : Json) (ys : List Json) (fuel : Nat) (rest : List Nat),
    sizeElems (y :: ys) ≤ fuel →
    parseElems fuel (stringifyElems (y :: ys) ++ 93 :: rest) = some (y :: ys, rest)
  | y, [], fuel, rest, hf => by
    obtain ⟨f, rfl⟩ : ∃ f, fuel = f + 1 :=
      ⟨fuel - 1, by simp [sizeElems] at hf; have := sizeJ_pos y; omega⟩
    rw [show stringifyElems [y] ++ 93 :: rest = jsonStringify y ++ 93 :: rest from rfl,
      parseElems_succ,
      parseVal_stringify y f (93 :: rest) (by simp [sizeElems] at hf; omega) rfl]
  | y, z :: zs, fuel, rest, hf => by
    obtain ⟨f, rfl⟩ : ∃ f, fuel = f + 1 :=
      ⟨fuel - 1, by simp [sizeElems] at hf; have := sizeJ_pos y; omega⟩
    have hinput : stringifyElems (y :: z :: zs) ++ 93 :: rest =
        jsonStringify y ++ (44 :: (stringifyElems (z :: zs) ++ 93 :: rest)) := by
      rw [show stringifyElems (y :: z :: zs) =
        jsonStringify y ++ 44 :: stringifyElems (z :: zs) from rfl]
      simp
    rw [hinput, parseElems_succ,
      parseVal_stringify y f (44 :: (stringifyElems (z :: zs) ++ 93 :: rest))
        (by simp [sizeElems] at hf; omega) rfl]
    simp [parseElems_stringify z zs f rest (by simp [sizeElems] at hf ⊢; omega)]
termination_by y ys _ _ _ => sizeElems (y :: ys)
decreasing_by
  all_goals simp [sizeJ, sizeElems, sizeMems] <;> omega

theorem parseMems_stringify : ∀ (m : List Nat × Json) (ms : List (List Nat × Json)) (fuel : Nat)
    (rest : List Nat), sizeMems (m :: ms) ≤ fuel →
    parseMems fuel (stringifyMems (m :: ms) ++ 125 :: rest) = some (m :: ms, rest)
  | (k, v), [], fuel, rest, hf => by
    obtain ⟨f, rfl⟩ : ∃ f, fuel = f + 1 :=
      ⟨fuel - 1, by simp [sizeMems] at hf; have := sizeJ_pos v; omega⟩
    have hinput : stringifyMems [(k, v)] ++ 125 :: rest =
        34 :: (escapeStr k ++ 34 :: (58 :: (jsonStringify v ++ 125 :: rest))) := by
      rw [show stringifyMems [(k, v)] =
        34 :: escapeStr k ++ [34, 58] ++ jsonStringify v from rfl]
      simp
    rw [hinput, parseMems_succ, parseStrBody_escape]
    simp [parseVal_stringify v f (125 :: rest) (by simp [sizeMems, sizeJ] at hf ⊢; omega) rfl]
  | (k, v), m2 :: ms2, fuel, rest, hf => by
    obtain ⟨f, rfl⟩ : ∃ f, fuel = f + 1 :=
      ⟨fuel - 1, by simp [sizeMems] at hf; have := sizeJ_pos v; omega⟩
    have hinput : stringifyMems ((k, v) :: m2 :: ms2) ++ 125 :: rest =
        34 :: (escapeStr k ++ 34 ::
          (58 :: (jsonStringify v ++ 44 :: (stringifyMems (m2 :: ms2) ++ 125 :: rest)))) := by
      rw [show stringifyMems ((k, v) :: m2 :: ms2) =
        34 :: escapeStr k ++ [34, 58] ++ jsonStringify v ++
          44 :: stringifyMems (m2 :: ms2) from rfl]
      simp
    rw [hinput, parseMems_succ, parseStrBody_escape]
    simp [parseVal_stringify v f (44 :: (stringifyMems (m2 :: ms2) ++ 125 :: rest))
        (by simp [sizeMems, sizeJ] at hf ⊢; omega) rfl,
      parseMems_stringify m2 ms2 f rest (by simp [sizeMems] at hf ⊢; omega)]
termination_by m ms _ _ _ => sizeMems (m :: ms)
decreasing_by
  all_goals simp [sizeJ, sizeElems, sizeMems] <;> omega
end

theorem atobGo_pad2 (w x y : Nat) (hy : y ≠ 61) : atobGo [w, x, y, 61] =
    (match charToSix w, charToSix x, charToSix y with
    | some sw, some sx, some sy => some [sw * 4 + sx / 16, sx % 16 * 16 + sy / 4]
    | _, _, _ => none) := by
  rw [atobGo.eq_def]
  split
  all_goals simp_all

theorem atobGo_four (w x y z : Nat) (T : List Nat) (hy : y ≠ 61) (hz : z ≠ 61) :
    atobGo (w :: x :: y :: z :: T) =
    (match charToSix w, charToSix x, charToSix y, charToSix z with
    | some sw, some sx, some sy, some sz =>
      (atobGo T).map
        (fun bs => (sw * 4 + sx / 16) :: (sx % 16 * 16 + sy / 4) :: (sy % 4 * 64 + sz) :: bs)
    | _, _, _, _ => none) := by
  rw [atobGo.eq_def]
  split
  all_goals try simp_all
  next _ hc => exact absurd rfl (hc w x y z T rfl rfl rfl rfl)

theorem charToSix_sixToChar : ∀ i < 64, charToSix (sixToChar i) = some i := by decide

theorem sixToChar_ne_61 : ∀ i < 64, sixToChar i ≠ 61 := by decide

theorem atobGo_btoaChunks : ∀ s : List Nat, (∀ c ∈ s, c < 256) →
    atobGo (btoaChunks s) = some s
  | [], _ => rfl
  | [a], h => by
    have ha : a < 256 := h a (by simp)
    have h1 : charToSix (sixToChar (a / 4)) = some (a / 4) :=
      charToSix_sixToChar _ (by omega)
    have h2 : charToSix (sixToChar (a % 4 * 16)) = some (a % 4 * 16) :=
      charToSix_sixToChar _ (by omega)
    rw [show btoaChunks [a] = [sixToChar (a / 4), sixToChar (a % 4 * 16), 61, 61] from rfl,
      atobGo, h1, h2]
    simp
    omega
  | [a, b], h => by
    have ha : a < 256 := h a (by simp)
    have hb : b < 256 := h b (by simp)
    have h1 : charToSix (sixToChar (a / 4)) = some (a / 4) :=
      charToSix_sixToChar _ (by omega)
    have h2 : charToSix (sixToChar (a % 4 * 16 + b / 16)) = some (a % 4 * 16 + b / 16) :=
      charToSix_sixToChar _ (by omega)
    have h3 : charToSix (sixToChar (b % 16 * 4)) = some (b % 16 * 4) :=
      charToSix_sixToChar _ (by omega)
    rw [show btoaChunks [a, b] =
      [sixToChar (a / 4), sixToChar (a % 4 * 16 + b / 16), sixToChar (b % 16 * 4), 61] from rfl,
      atobGo_pad2 _ _ _ (sixToChar_ne_61 _ (by omega)), h1, h2, h3]
    simp
    omega
  | [a, b, c], h => by
    have ha : a < 256 := h a (by simp)
    have hb : b < 256 := h b (by simp)
    have hc : c < 256 := h c (by simp)
    have h1 : charToSix (sixToChar (a / 4)) = some (a / 4) :=
      charToSix_sixToChar _ (by omega)
    have h2 : charToSix (sixToChar (a % 4 * 16 + b / 16)) = some (a % 4 * 16 + b / 16) :=
      charToSix_sixToChar _ (by omega)
    have h3 : charToSix (sixToChar (b % 16 * 4 + c / 64)) = some (b % 16 * 4 + c / 64) :=
      charToSix_sixToChar _ (by omega)
    have h4 : charToSix (sixToChar (c % 64)) = some (c % 64) :=
      charToSix_sixToChar _ (by omega)
    rw [show btoaChunks [a, b, c] =
      sixToChar (a / 4) :: sixToChar (a % 4 * 16 + b / 16) ::
        sixToChar (b % 16 * 4 + c / 64) :: sixToChar (c % 64) :: btoaChunks [] from rfl,
      atobGo_four _ _ _ _ _ (sixToChar_ne_61 _ (by omega)) (sixToChar_ne_61 _ (by omega)),
      h1, h2, h3, h4]
    rw [show atobGo (btoaChunks []) = some [] from rfl]
    simp
    omega
  | a :: b :: c :: d :: rest, h => by
    have ha : a < 256 := h a (by simp)
    have hb : b < 256 := h b (by simp)
    have hc : c < 256 := h c (by simp)
    have h1 : charToSix (sixToChar (a / 4)) = some (a / 4) :=
      charToSix_sixToChar _ (by omega)
    have h2 : charToSix (sixToChar (a % 4 * 16 + b / 16)) = some (a % 4 * 16 + b / 16) :=
      charToSix_sixToChar _ (by omega)
    have h3 : charToSix (sixToChar (b % 16 * 4 + c / 64)) = some (b % 16 * 4 + c / 64) :=
      charToSix_sixToChar _ (by omega)
    have h4 : charToSix (sixToChar (c % 64)) = some (c % 64) :=
      charToSix_sixToChar _ (by omega)
    have hrec := atobGo_btoaChunks (d :: rest)
      (fun e he => h e (List.mem_cons_of_mem _ (List.mem_cons_of_mem _
        (List.mem_cons_of_mem _ he))))
    rw [show btoaChunks (a :: b :: c :: d :: rest) =
      sixToChar (a / 4) :: sixToChar (a % 4 * 16 + b / 16) ::
        sixToChar (b % 16 * 4 + c / 64) :: sixToChar (c % 64) ::
          btoaChunks (d :: rest) from rfl,
      atobGo_four _ _ _ _ _ (sixToChar_ne_61 _ (by omega)) (sixToChar_ne_61 _ (by omega)),
      h1, h2, h3, h4, hrec]
    simp
    refine ⟨by omega, by omega, by omega⟩

theorem atob_btoa (s : List Nat) (h : s.all (fun c => c < 256) = true) :
    (btoa s).bind atob = some s := by
  rw [btoa, if_pos h]
  simp only [Option.bind_some, atob]
  exact atobGo_btoaChunks s (by simpa [List.all_eq_true] using h)

/-! Lemmas about the XOR keystream. -/

theorem xorFrom_involution (key : List Nat) : ∀ (s : List Nat) (i : Nat),
    xorFrom key i (xorFrom key i s) = s := by
  intro s
  induction s with
  | nil => intro i; rfl
  | cons c cs ih =>
    intro i
    rw [xorFrom, xorFrom, Nat.xor_assoc, Nat.xor_self, Nat.xor_zero, ih]

theorem xorTransform_involution (s key : List Nat) :
    xorTransform (xorTransform s key) key = s :=
  xorFrom_involution key s 0

theorem getD_lt256 (key : List Nat) (hkey : ∀ c ∈ key, c < 256) (j : Nat) :
    key.getD j 0 < 256 := by
  rcases Nat.lt_or_ge j key.length with hlt | hge
  · rw [List.getD_eq_getElem key 0 hlt]
    exact hkey _ (List.getElem_mem hlt)
  · rw [List.getD_eq_default key 0 hge]
    omega

theorem xorFrom_lt256 (key : List Nat) (hkey : ∀ c ∈ key, c < 256) : ∀ (s : List Nat) (i : Nat),
    (∀ c ∈ s, c < 256) → ∀ c ∈ xorFrom key i s, c < 256 := by
  intro s
  induction s with
  | nil => intro i _ c hc; simp [xorFrom] at hc
  | cons a as ih =>
    intro i hs c hc
    rw [xorFrom] at hc
    rcases List.mem_cons.mp hc with hc | hc
    · have hk : key.getD (i % key.length) 0 < 256 := getD_lt256 key hkey _
      have ha : a < 256 := hs a (by simp)
      have h8 : (256 : Nat) = 2 ^ 8 := rfl
      subst hc
      rw [h8] at hk ha ⊢
      exact Nat.xor_lt_two_pow ha hk
    · exact ih (i + 1) (fun e he => hs e (by simp [he])) c hc

/-! Round trip of the serializer. -/

mutual
theorem sizeJ_le_len : ∀ x : Json, sizeJ x ≤ (jsonStringify x).length
  | .null => by simp [sizeJ, jsonStringify]
  | .boolean true => by simp [sizeJ, jsonStringify]
  | .boolean false => by simp [sizeJ, jsonStringify]
  | .num n => by
    obtain ⟨c, cs, heq, _, _⟩ := jsonStringify_cons (.num n)
    rw [heq]
    simp [sizeJ]
  | .str s => by simp [sizeJ, jsonStringify]
  | .arr [] => by simp [sizeJ, sizeElems, jsonStringify, stringifyElems]
  | .arr (y :: ys) => by
    have h := sizeElems_le_len y ys
    rw [show jsonStringify (.arr (y :: ys)) =
      91 :: stringifyElems (y :: ys) ++ [93] from rfl]
    simp [sizeJ] at h ⊢
    omega
  | .obj [] => by simp [sizeJ, sizeMems, jsonStringify, stringifyMems]
  | .obj (m :: ms) => by
    have h := sizeMems_le_len m ms
    rw [show jsonStringify (.obj (m :: ms)) =
      123 :: stringifyMems (m :: ms) ++ [125] from rfl]
    simp [sizeJ] at h ⊢
    omega
termination_by x => sizeJ x
decreasing_by
  all_goals simp [sizeJ, sizeElems, sizeMems] <;> omega

theorem sizeElems_le_len : ∀ (y : Json) (ys : List Json),
    sizeElems (y :: ys) ≤ (stringifyElems (y :: ys)).length + 1
  | y, [] => by
    have h := sizeJ_le_len y
    rw [show stringifyElems [y] = jsonStringify y from rfl]
    simp [sizeElems, sizeJ]
    omega
  | y, z :: zs => by
    have h1 := sizeJ_le_len y
    have h2 := sizeElems_le_len z zs
    rw [show stringifyElems (y :: z :: zs) =
      jsonStringify y ++ 44 :: stringifyElems (z :: zs) from rfl]
    simp [sizeElems] at h2 ⊢
    omega
termination_by y ys => sizeElems (y :: ys)
decreasing_by
  all_goals simp [sizeJ, sizeElems, sizeMems] <;> omega

theorem sizeMems_le_len : ∀ (m : List Nat × Json) (ms : List (List Nat × Json)),
    sizeMems (m :: ms) ≤ (stringifyMems (m :: ms)).length + 1
  | (k, v), [] => by
    have h := sizeJ_le_len v
    rw [show stringifyMems [(k, v)] =
      34 :: escapeStr k ++ [34, 58] ++ jsonStringify v from rfl]
    simp [sizeMems]
    omega
  | (k, v), m2 :: ms2 => by
    have h1 := sizeJ_le_len v
    have h2 := sizeMems_le_len m2 ms2
    rw [show stringifyMems ((k, v) :: m2 :: ms2) =
      34 :: escapeStr k ++ [34, 58] ++ jsonStringify v ++
        44 :: stringifyMems (m2 :: ms2) from rfl]
    simp [sizeMems] at h2 ⊢
    omega
termination_by m ms => sizeMems (m :: ms)
decreasing_by
  all_goals simp [sizeJ, sizeElems, sizeMems] <;> omega
end

theorem jsonParse_stringify (x : Json) : jsonParse (jsonStringify x) = some x := by
  have h := parseVal_stringify x ((jsonStringify x).length + 1) []
    (by have := sizeJ_le_len x; omega) rfl
  rw [List.append_nil] at h
  rw [jsonParse, h]

mutual
theorem deepClone_eq : ∀ x : Json, deepClone x = x
  | .null => rfl
  | .boolean _ => rfl
  | .num _ => rfl
  | .str _ => rfl
  | .arr xs => by rw [deepClone, deepCloneElems_eq xs]
  | .obj ms => by rw [deepClone, deepCloneMems_eq ms]

theorem deepCloneElems_eq : ∀ xs : List Json, deepCloneElems xs = xs
  | [] => rfl
  | x :: xs => by rw [deepCloneElems, deepClone_eq x, deepCloneElems_eq xs]

theorem deepCloneMems_eq : ∀ ms : List (List Nat × Json), deepCloneMems ms = ms
  | [] => rfl
  | (k, v) :: ms => by rw [deepCloneMems, deepClone_eq v, deepCloneMems_eq ms]
end

theorem deserialize_serialize (j : Json) (enc : Bool) (key data : List Nat)
    (h : serialize j enc key = some data) : deserialize data enc key = some j := by
  cases enc with
  | false =>
    rw [serialize] at h
    simp at h
    rw [deserialize]
    simp [← h, jsonParse_stringify]
  | true =>
    rw [serialize] at h
    simp only [if_pos] at h
    rw [encrypt, btoa] at h
    by_cases hall : (xorTransform (jsonStringify j) key).all (fun c => c < 256) = true
    · rw [if_pos hall] at h
      have hdata : data = btoaChunks (xorTransform (jsonStringify j) key) := by
        simpa using h.symm
      have hat : atob data = some (xorTransform (jsonStringify j) key) := by
        rw [hdata, atob]
        exact atobGo_btoaChunks _ (by simpa [List.all_eq_true] using hall)
      rw [deserialize]
      simp [decrypt, hat, xorTransform_involution, jsonParse_stringify]
    · rw [if_neg hall] at h
      exact absurd h (by simp)

theorem hexDigit_lt256 : ∀ d < 16, hexDigit d < 256 := by decide

theorem escapeCode_lt256 (a : Nat) (ha : a < 256) : ∀ c ∈ escapeCode a, c < 256 := by
  intro c hc
  rw [escapeCode] at hc
  by_cases h34 : a = 34
  · rw [if_pos h34] at hc
    simp at hc
    omega
  · rw [if_neg h34] at hc
    by_cases h92 : a = 92
    · rw [if_pos h92] at hc
      simp at hc
      omega
    · rw [if_neg h92] at hc
      by_cases hlt : a < 32
      · rw [if_pos hlt] at hc
        have g1 := hexDigit_lt256 (a / 16) (by omega)
        have g2 := hexDigit_lt256 (a % 16) (by omega)
        simp at hc
        rcases hc with hc | hc | hc | hc | hc | hc <;> omega
      · rw [if_neg hlt] at hc
        simp at hc
        omega

theorem escapeStr_lt256 (s : List Nat) (hs : ∀ c ∈ s, c < 256) :
    ∀ c ∈ escapeStr s, c < 256 := by
  induction s with
  | nil => intro c hc; simp [escapeStr] at hc
  | cons a as ih =>
    intro c hc
    rw [escapeStr] at hc
    rcases List.mem_append.mp hc with hc | hc
    · exact escapeCode_lt256 a (hs a (by simp)) c hc
    · exact ih (fun e he => hs e (by simp [he])) c hc

theorem intToCodes_lt256 (n : Int) : ∀ c ∈ intToCodes n, c < 256 := by
  intro c hc
  rw [intToCodes] at hc
  split at hc
  · rcases List.mem_cons.mp hc with hc | hc
    · omega
    · have := natToCodesF_digits _ _ c hc
      omega
  · have := natToCodesF_digits _ _ c hc
    omega

mutual
theorem stringify_lt256 : ∀ x : Json, latin1 x = true → ∀ c ∈ jsonStringify x, c < 256
  | .null => by intro _ c hc; rw [jsonStringify] at hc; simp at hc; omega
  | .boolean true => by intro _ c hc; rw [jsonStringify] at hc; simp at hc; omega
  | .boolean false => by intro _ c hc; rw [jsonStringify] at hc; simp at hc; omega
  | .num n => by intro _ c hc; exact intToCodes_lt256 n c hc
  | .str s => by
    intro hl c hc
    rw [jsonStringify] at hc
    rw [latin1] at hl
    rcases List.mem_cons.mp hc with hc | hc
    · omega
    · rcases List.mem_append.mp hc with hc | hc
      · exact escapeStr_lt256 s (by simpa [List.all_eq_true] using hl) c hc
      · simp at hc; omega
  | .arr [] => by
    intro _ c hc
    rw [show jsonStringify (.arr []) = [91, 93] from rfl] at hc
    simp at hc; omega
  | .arr (y :: ys) => by
    intro hl c hc
    rw [jsonStringify] at hc
    rw [latin1] at hl
    rcases List.mem_cons.mp hc with hc | hc
    · omega
    · rcases List.mem_append.mp hc with hc | hc
      · exact stringifyElems_lt256 y ys hl c hc
      · simp at hc; omega
  | .obj [] => by
    intro _ c hc
    rw [show jsonStringify (.obj []) = [123, 125] from rfl] at hc
    simp at hc; omega
  | .obj (m :: ms) => by
    intro hl c hc
    rw [jsonStringify] at hc
    rw [latin1] at hl
    rcases List.mem_cons.mp hc with hc | hc
    · omega
    · rcases List.mem_append.mp hc with hc | hc
      · exact stringifyMems_lt256 m ms hl c hc
      · simp at hc; omega
termination_by x => sizeJ x
decreasing_by
  all_goals simp [sizeJ, sizeElems, sizeMems] <;> omega

theorem stringifyElems_lt256 : ∀ (y : Json) (ys : List Json), latin1Elems (y :: ys) = true →
    ∀ c ∈ stringifyElems (y :: ys), c < 256
  | y, [], hl => by
    rw [show stringifyElems [y] = jsonStringify y from rfl]
    rw [latin1Elems] at hl
    simp at hl
    exact stringify_lt256 y hl.1
  | y, z :: zs, hl => by
    intro c hc
    rw [show stringifyElems (y :: z :: zs) =
      jsonStringify y ++ 44 :: stringifyElems (z :: zs) from rfl] at hc
    rw [latin1Elems] at hl
    simp at hl
    rcases List.mem_append.mp hc with hc | hc
    · exact stringify_lt256 y hl.1 c hc
    · rcases List.mem_cons.mp hc with hc | hc
      · omega
      · exact stringifyElems_lt256 z zs hl.2 c hc
termination_by y ys _ => sizeElems (y :: ys)
decreasing_by
  all_goals simp [sizeJ, sizeElems, sizeMems] <;> omega

theorem stringifyMems_lt256 : ∀ (m : List Nat × Json) (ms : List (List Nat × Json)),
    latin1Mems (m :: ms) = true → ∀ c ∈ stringifyMems (m :: ms), c < 256
  | (k, v), [], hl => by
    intro c hc
    rw [show stringifyMems [(k, v)] =
      34 :: escapeStr k ++ [34, 58] ++ jsonStringify v from rfl] at hc
    rw [latin1Mems] at hl
    simp [List.all_eq_true] at hl
    rcases List.mem_append.mp hc with hc | hc
    · rcases List.mem_append.mp hc with hc | hc
      · rcases List.mem_cons.mp hc with hc | hc
        · omega
        · exact escapeStr_lt256 k hl.1.1 c hc
      · simp at hc; omega
    · exact stringify_lt256 v hl.1.2 c hc
  | (k, v), m2 :: ms2, hl => by
    intro c hc
    rw [show stringifyMems ((k, v) :: m2 :: ms2) =
      34 :: escapeStr k ++ [34, 58] ++ jsonStringify v ++
        44 :: stringifyMems (m2 :: ms2) from rfl] at hc
    rw [latin1Mems] at hl
    simp [List.all_eq_true] at hl
    rcases List.mem_append.mp hc with hc | hc
    · rcases List.mem_append.mp hc with hc | hc
      · rcases List.mem_append.mp hc with hc | hc
        · rcases List.mem_cons.mp hc with hc | hc
          · omega
          · exact escapeStr_lt256 k hl.1.1 c hc
        · simp at hc; omega
      · exact stringify_lt256 v hl.1.2 c hc
    · rcases List.mem_cons.mp hc with hc | hc
      · omega
      · exact stringifyMems_lt256 m2 ms2 hl.2 c hc
termination_by m ms _ => sizeMems (m :: ms)
decreasing_by
  all_goals simp [sizeJ, sizeElems, sizeMems] <;> omega
end

theorem serialize_latin1 (x : Json) (key : List Nat) (hx : latin1 x = true)
    (hk : ∀ c ∈ key, c < 256) :
    serialize x true key = some (btoaChunks (xorTransform (jsonStringify x) key)) := by
  rw [serialize]
  simp only [if_pos]
  rw [encrypt, btoa, if_pos]
  rw [List.all_eq_true]
  intro c hc
  simp only [decide_eq_true_eq]
  exact xorFrom_lt256 key hk (jsonStringify x) 0 (stringify_lt256 x hx) c hc

theorem jsonStringify_ne_nil (x : Json) : jsonStringify x ≠ [] := by
  obtain ⟨c, cs, heq, _, _⟩ := jsonStringify_cons x
  rw [heq]
  simp

theorem xorTransform_ne_nil (s key : List Nat) (h : s ≠ []) : xorTransform s key ≠ [] := by
  cases s with
  | nil => exact absurd rfl h
  | cons c cs => rw [xorTransform, xorFrom]; simp

theorem btoaChunks_ne_nil (s : List Nat) (h : s ≠ []) : btoaChunks s ≠ [] := by
  match s with
  | [] => exact absurd rfl h
  | [a] => rw [show btoaChunks [a] = [sixToChar (a / 4), sixToChar (a % 4 * 16), 61, 61] from rfl]; simp
  | [a, b] =>
    rw [show btoaChunks [a, b] = [sixToChar (a / 4), sixToChar (a % 4 * 16 + b / 16),
      sixToChar (b % 16 * 4), 61] from rfl]
    simp
  | a :: b :: c :: rest =>
    rw [show btoaChunks (a :: b :: c :: rest) = sixToChar (a / 4) ::
      sixToChar (a % 4 * 16 + b / 16) :: sixToChar (b % 16 * 4 + c / 64) ::
        sixToChar (c % 64) :: btoaChunks rest from rfl]
    simp

theorem serialize_ne_nil (x : Json) (enc : Bool) (key data : List Nat)
    (h : serialize x enc key = some data) : data ≠ [] := by
  cases enc with
  | false =>
    rw [serialize] at h
    simp at h
    rw [← h]
    exact jsonStringify_ne_nil x
  | true =>
    rw [serialize] at h
    simp only [if_pos] at h
    rw [encrypt, btoa] at h
    split at h
    · have : data = btoaChunks (xorTransform (jsonStringify x) key) := by simpa using h.symm
      rw [this]
      exact btoaChunks_ne_nil _ (xorTransform_ne_nil _ _ (jsonStringify_ne_nil x))
    · exact absurd h (by simp)

/-! Lemmas about the `Store` model. -/

theorem find?_map_set (st : Store) (k v : List Nat) :
    (st.map (fun p => if p.1 == k then (k, v) else p)).find? (fun p => p.1 == k) =
      if st.any (fun p => p.1 == k) then some (k, v) else none := by
  induction st with
  | nil => simp
  | cons q qs ih =>
    by_cases hq : (q.1 == k) = true
    · rw [List.map_cons, if_pos hq,
        @List.find?_cons_of_pos (List Nat × List Nat) (fun p => p.1 == k) (k, v) _ (by simp)]
      simp [List.any_cons, hq]
    · have hqf : (q.1 == k) = false := by simpa using hq
      simp only [List.map_cons, List.any_cons, hqf, Bool.false_or, List.find?_cons,
        Bool.false_eq_true, if_false]
      exact ih

theorem find?_map_set_ne (st : Store) (k v k2 : List Nat) (hne : k2 ≠ k) :
    (st.map (fun p => if p.1 == k then (k, v) else p)).find? (fun p => p.1 == k2) =
      st.find? (fun p => p.1 == k2) := by
  induction st with
  | nil => simp
  | cons q qs ih =>
    by_cases hq : (q.1 == k) = true
    · have h1 : (((k, v) : List Nat × List Nat).1 == k2) = false := by
        rw [beq_eq_false_iff_ne]
        exact fun h => hne h.symm
      have h2 : (q.1 == k2) = false := by
        rw [beq_eq_false_iff_ne]
        rw [beq_iff_eq] at hq
        rw [hq]
        exact fun h => hne h.symm
      simp only [List.map_cons, if_pos hq, List.find?_cons, h1, h2]
      exact ih
    · simp only [List.map_cons, if_neg hq, List.find?_cons]
      by_cases hq2 : (q.1 == k2) = true
      · simp [hq2]
      · have hq2f : (q.1 == k2) = false := by simpa using hq2
        simp only [hq2f]
        exact ih

theorem getItem_setItem_self (st : Store) (k v : List Nat) :
    getItem (setItem st k v) k = some v := by
  rw [setItem, getItem]
  split
  · next hany => rw [find?_map_set, if_pos hany]; rfl
  · next hany =>
    rw [List.find?_append]
    have hnone : st.find? (fun p => p.1 == k) = none := by
      rw [List.find?_eq_none]
      intro p hp
      by_contra hc
      exact hany (List.any_eq_true.mpr ⟨p, hp, by simpa using hc⟩)
    rw [hnone]
    simp [List.find?_cons]

theorem getItem_setItem_ne (st : Store) (k v k2 : List Nat) (hne : k2 ≠ k) :
    getItem (setItem st k v) k2 = getItem st k2 := by
  rw [setItem, getItem, getItem]
  split
  · rw [find?_map_set_ne st k v k2 hne]
  · rw [List.find?_append]
    have h1 : List.find? (fun p => p.1 == k2) [(k, v)] = none := by
      have hf : (((k, v) : List Nat × List Nat).1 == k2) = false := by
        rw [beq_eq_false_iff_ne]
        exact fun h => hne h.symm
      simp [List.find?_cons, hf]
    rw [h1]
    cases st.find? (fun p => p.1 == k2) <;> rfl

theorem getItem_removeItem_self (st : Store) (k : List Nat) :
    getItem (removeItem st k) k = none := by
  rw [removeItem, getItem]
  have h : (st.filter (fun p => !(p.1 == k))).find? (fun p => p.1 == k) = none := by
    rw [List.find?_eq_none]
    intro p hp
    have := List.of_mem_filter hp
    simpa using this
  rw [h]
  rfl

theorem getItem_removeItem_ne (st : Store) (k k2 : List Nat) (hne : k2 ≠ k) :
    getItem (removeItem st k) k2 = getItem st k2 := by
  rw [removeItem, getItem, getItem]
  have h : (st.filter (fun p => !(p.1 == k))).find? (fun p => p.1 == k2) =
      st.find? (fun p => p.1 == k2) := by
    induction st with
    | nil => simp
    | cons q qs ih =>
      by_cases hq : (q.1 == k) = true
      · have h2 : (q.1 == k2) = false := by
          rw [beq_eq_false_iff_ne]
          rw [beq_iff_eq] at hq
          rw [hq]
          exact fun h => hne h.symm
        rw [List.filter_cons_of_neg (by simpa using hq)]
        simp only [List.find?_cons, h2]
        exact ih
      · rw [List.filter_cons_of_pos (by simpa using hq)]
        simp only [List.find?_cons]
        by_cases hq2 : (q.1 == k2) = true
        · simp [hq2]
        · have hq2f : (q.1 == k2) = false := by simpa using hq2
          simp only [hq2f]
          exact ih
  rw [h]

/-! Behaviour of `get` and `has` on a decodable stored envelope. -/

theorem getField_value (a b c : Json) :
    getField [(valueKey, a), (expiresKey, b), (createdKey, c)] valueKey = some a := by
  have h : (valueKey == valueKey) = true := by decide
  simp [getField, List.find?_cons, h]

theorem getField_expires (a b c : Json) :
    getField [(valueKey, a), (expiresKey, b), (createdKey, c)] expiresKey = some b := by
  have h1 : (valueKey == expiresKey) = false := by decide
  have h2 : (expiresKey == expiresKey) = true := by decide
  simp [getField, List.find?_cons, h1, h2]

theorem jsExpiredVal_envExpires (e : Option Int) (t : Nat) :
    jsExpiredVal (match e with | none => Json.null | some x => Json.num x) t = isExpired t e := by
  cases e <;> simp [jsExpiredVal, isExpired]

theorem get_stored (cfg : StorageConfig) (t : Nat) (st : Store) (key data : List Nat)
    (env : StorageItem) (deflt : Option Json)
    (hget : getItem st (getFullKey cfg key) = some data)
    (hd : data ≠ [])
    (hdec : deserialize data cfg.encrypt cfg.encryptKey = some (itemToJson env)) :
    WebStorage.get cfg t st key deflt =
      if isExpired t env.expires then
        (deflt, removeItem st (getFullKey cfg key), [Ev.remove key, Ev.expired (some key)])
      else (some env.value, st, [Ev.get key env.value]) := by
  rw [WebStorage.get, hget]
  simp only [if_neg hd]
  rw [hdec, itemToJson]
  simp only [getField_value, getField_expires, jsExpiredField, jsExpiredVal_envExpires]
  cases hexp : isExpired t env.expires with
  | true => simp [hexp]
  | false => simp [hexp, deepClone_eq]

theorem has_stored (cfg : StorageConfig) (t : Nat) (st : Store) (key data : List Nat)
    (env : StorageItem)
    (hget : getItem st (getFullKey cfg key) = some data)
    (hd : data ≠ [])
    (hdec : deserialize data cfg.encrypt cfg.encryptKey = some (itemToJson env)) :
    WebStorage.has cfg t st key =
      if isExpired t env.expires then
        (false, removeItem st (getFullKey cfg key), [Ev.remove key])
      else (true, st, []) := by
  rw [WebStorage.has, hget]
  simp only [if_neg hd]
  rw [hdec, itemToJson]
  simp only [getField_expires, jsExpiredVal_envExpires]

theorem set_success (cfg : StorageConfig) (now : Nat) (st : Store) (key : List Nat) (v : Json)
    (opts : SetOptions) (hs : (WebStorage.set cfg now st key v opts).1 = true) :
    ∃ data,
      serialize (itemToJson (mkEnvelope cfg opts now v)) (opts.encrypt.getD cfg.encrypt)
        cfg.encryptKey = some data ∧
      (WebStorage.set cfg now st key v opts).2.1 = setItem st (getFullKey cfg key) data ∧
      (WebStorage.set cfg now st key v opts).2.2 = [Ev.set key v] := by
  cases hser : serialize (itemToJson (mkEnvelope cfg opts now v)) (opts.encrypt.getD cfg.encrypt)
      cfg.encryptKey with
  | none => rw [WebStorage.set, hser] at hs; simp at hs
  | some data =>
    refine ⟨data, rfl, ?_, ?_⟩
    · rw [WebStorage.set, hser]
    · rw [WebStorage.set, hser]

theorem isExpired_at_creation (now : Nat) (r : Option Nat) :
    isExpired now (calculateExpires now r) = false := by
  cases r with
  | none => rfl
  | some d =>
    rw [calculateExpires, isExpired]
    simp

theorem get_after_set (cfg : StorageConfig) (now t : Nat) (st : Store) (key : List Nat)
    (v : Json) (opts : SetOptions) (deflt : Option Json)
    (henc : opts.encrypt.getD cfg.encrypt = cfg.encrypt)
    (hs : (WebStorage.set cfg now st key v opts).1 = true) :
    WebStorage.get cfg t (WebStorage.set cfg now st key v opts).2.1 key deflt =
      if isExpired t (mkEnvelope cfg opts now v).expires then
        (deflt, removeItem (WebStorage.set cfg now st key v opts).2.1 (getFullKey cfg key),
         [Ev.remove key, Ev.expired (some key)])
      else (some v, (WebStorage.set cfg now st key v opts).2.1, [Ev.get key v]) := by
  obtain ⟨data, hser, hst, _⟩ := set_success cfg now st key v opts hs
  have hdec : deserialize data cfg.encrypt cfg.encryptKey =
      some (itemToJson (mkEnvelope cfg opts now v)) := by
    rw [← henc]
    exact deserialize_serialize _ _ _ _ hser
  have hget : getItem (WebStorage.set cfg now st key v opts).2.1 (getFullKey cfg key) =
      some data := by
    rw [hst]
    exact getItem_setItem_self st (getFullKey cfg key) data
  have hd := serialize_ne_nil _ _ _ _ hser
  rw [get_stored cfg t _ key data (mkEnvelope cfg opts now v) deflt hget hd hdec]
  have hval : (mkEnvelope cfg opts now v).value = v := by
    rw [mkEnvelope]
    exact deepClone_eq v
  rw [hval]

theorem has_after_set (cfg : StorageConfig) (now t : Nat) (st : Store) (key : List Nat)
    (v : Json) (opts : SetOptions)
    (henc : opts.encrypt.getD cfg.encrypt = cfg.encrypt)
    (hs : (WebStorage.set cfg now st key v opts).1 = true) :
    WebStorage.has cfg t (WebStorage.set cfg now st key v opts).2.1 key =
      if isExpired t (mkEnvelope cfg opts now v).expires then
        (false, removeItem (WebStorage.set cfg now st key v opts).2.1 (getFullKey cfg key),
         [Ev.remove key])
      else (true, (WebStorage.set cfg now st key v opts).2.1, []) := by
  obtain ⟨data, hser, hst, _⟩ := set_success cfg now st key v opts hs
  have hdec : deserialize data cfg.encrypt cfg.encryptKey =
      some (itemToJson (mkEnvelope cfg opts now v)) := by
    rw [← henc]
    exact deserialize_serialize _ _ _ _ hser
  have hget : getItem (WebStorage.set cfg now st key v opts).2.1 (getFullKey cfg key) =
      some data := by
    rw [hst]
    exact getItem_setItem_self st (getFullKey cfg key) data
  have hd := serialize_ne_nil _ _ _ _ hser
  rw [has_stored cfg t _ key data (mkEnvelope cfg opts now v) hget hd hdec]

/-! Prefix and sweep helpers. -/

theorem isPrefixOf_append_self (pre k : List Nat) : pre.isPrefixOf (pre ++ k) = true := by
  rw [List.isPrefixOf_iff_prefix]
  exact List.prefix_append pre k

theorem not_prefix_of_other_append (pa pb k : List Nat)
    (hAB : pa.isPrefixOf pb = false) (hBA : pb.isPrefixOf pa = false) :
    pa.isPrefixOf (pb ++ k) = false := by
  by_contra hc
  have hp : pa <+: pb ++ k := by
    rw [← List.isPrefixOf_iff_prefix]
    rwa [Bool.not_eq_false] at hc
  have hpb : pb <+: pb ++ k := List.prefix_append pb k
  rcases le_or_lt pa.length pb.length with hle | hlt
  · have hx : pa <+: pb := List.prefix_of_prefix_length_le hp hpb hle
    rw [← List.isPrefixOf_iff_prefix] at hx
    rw [hx] at hAB
    exact Bool.noConfusion hAB
  · have hx : pb <+: pa := List.prefix_of_prefix_length_le hpb hp (by omega)
    rw [← List.isPrefixOf_iff_prefix] at hx
    rw [hx] at hBA
    exact Bool.noConfusion hBA

theorem getItem_filter_not_prefixed (pre : List Nat) (st : Store) (fk : List Nat)
    (h : pre.isPrefixOf fk = false) :
    getItem (st.filter (fun p => !(pre.isPrefixOf p.1))) fk = getItem st fk := by
  rw [getItem, getItem]
  induction st with
  | nil => simp
  | cons q qs ih =>
    by_cases hq : pre.isPrefixOf q.1 = true
    · have hne : (q.1 == fk) = false := by
        rw [beq_eq_false_iff_ne]
        intro he
        rw [he] at hq
        rw [hq] at h
        exact Bool.noConfusion h
      rw [List.filter_cons_of_neg (by rw [hq]; decide)]
      simp only [List.find?_cons, hne]
      exact ih
    · have hqf : pre.isPrefixOf q.1 = false := by rwa [Bool.not_eq_true] at hq
      rw [List.filter_cons_of_pos (by rw [hqf]; rfl)]
      simp only [List.find?_cons]
      by_cases hq2 : (q.1 == fk) = true
      · simp [hq2]
      · have hq2f : (q.1 == fk) = false := by rwa [Bool.not_eq_true] at hq2
        simp only [hq2f]
        exact ih

theorem getItem_filter_prefixed (pre : List Nat) (st : Store) (fk : List Nat)
    (h : pre.isPrefixOf fk = true) :
    getItem (st.filter (fun p => !(pre.isPrefixOf p.1))) fk = none := by
  rw [getItem]
  have hfind : (st.filter (fun p => !(pre.isPrefixOf p.1))).find? (fun p => p.1 == fk) =
      none := by
    rw [List.find?_eq_none]
    intro p hp
    have hkeep := List.of_mem_filter hp
    simp only [Bool.not_eq_true'] at hkeep
    intro hc
    rw [beq_iff_eq] at hc
    rw [hc, h] at hkeep
    exact Bool.noConfusion hkeep
  rw [hfind]
  rfl

theorem getItem_filter_keep (cond : List Nat × List Nat → Bool) (st : Store)
    (fk data : List Nat) (hget : getItem st fk = some data)
    (hcond : cond (fk, data) = false) :
    getItem (st.filter (fun p => !(cond p))) fk = some data := by
  rw [getItem] at hget ⊢
  induction st with
  | nil => simp at hget
  | cons q qs ih =>
    by_cases hq : (q.1 == fk) = true
    · simp only [List.find?_cons, hq] at hget
      have hqfk : q.1 = fk := by rwa [beq_iff_eq] at hq
      have hqeq : q = (fk, data) := by
        obtain ⟨q1, q2⟩ := q
        simp only at hqfk hget
        rw [hqfk]
        simp at hget
        rw [hget]
      rw [List.filter_cons_of_pos (by rw [hqeq]; rw [hcond]; rfl)]
      simp only [List.find?_cons, hq]
      rw [hqeq]
      simp
    · have hqf : (q.1 == fk) = false := by rwa [Bool.not_eq_true] at hq
      simp only [List.find?_cons, hqf] at hget
      by_cases hqc : cond q = true
      · rw [List.filter_cons_of_neg (by rw [hqc]; decide)]
        exact ih hget
      · have hqcf : cond q = false := by rwa [Bool.not_eq_true] at hqc
        rw [List.filter_cons_of_pos (by rw [hqcf]; rfl)]
        simp only [List.find?_cons, hqf]
        exact ih hget

theorem entryStats_inv (cfg : StorageConfig) (now : Nat) (p : List Nat × List Nat) :
    (WebStorage.entryStats cfg now p).total =
      (WebStorage.entryStats cfg now p).expired + (WebStorage.entryStats cfg now p).valid := by
  rw [WebStorage.entryStats]
  split
  · split
    · split
      · split <;> rfl
      · rfl
    · rfl
  · rfl

/-! A base64 text never parses as a JSON object. -/

theorem parseVal_obj_head (fuel : Nat) (input : List Nat) (ms : List (List Nat × Json))
    (rest : List Nat) (h : parseVal fuel input = some (Json.obj ms, rest)) :
    ∃ r, input = 123 :: r := by
  cases fuel with
  | zero => rw [parseVal] at h; exact absurd h (by simp)
  | succ f =>
    cases input with
    | nil => rw [parseVal] at h; exact absurd h (by simp)
    | cons c r =>
      rw [parseVal_succ_cons] at h
      repeat' split at h
      all_goals try (exact ⟨r, by simp_all⟩)
      all_goals simp [Option.map_eq_some'] at h

theorem sixToChar_ne_123 : ∀ i < 64, sixToChar i ≠ 123 := by decide

theorem btoaChunks_mem_ne_123 : ∀ s : List Nat, (∀ c ∈ s, c < 256) →
    ∀ c ∈ btoaChunks s, c ≠ 123
  | [], _ => by intro c hc; simp [btoaChunks] at hc
  | [a], h => by
    intro c hc
    have ha : a < 256 := h a (by simp)
    rw [show btoaChunks [a] = [sixToChar (a / 4), sixToChar (a % 4 * 16), 61, 61] from rfl] at hc
    rcases List.mem_cons.mp hc with hc | hc
    · exact hc ▸ sixToChar_ne_123 _ (by omega)
    rcases List.mem_cons.mp hc with hc | hc
    · exact hc ▸ sixToChar_ne_123 _ (by omega)
    · simp at hc
      rcases hc with hc | hc <;> omega
  | [a, b], h => by
    intro c hc
    have ha : a < 256 := h a (by simp)
    have hb : b < 256 := h b (by simp)
    rw [show btoaChunks [a, b] = [sixToChar (a / 4), sixToChar (a % 4 * 16 + b / 16),
      sixToChar (b % 16 * 4), 61] from rfl] at hc
    rcases List.mem_cons.mp hc with hc | hc
    · exact hc ▸ sixToChar_ne_123 _ (by omega)
    rcases List.mem_cons.mp hc with hc | hc
    · exact hc ▸ sixToChar_ne_123 _ (by omega)
    rcases List.mem_cons.mp hc with hc | hc
    · exact hc ▸ sixToChar_ne_123 _ (by omega)
    · simp at hc
      omega
  | [a, b, d], h => by
    intro c hc
    have ha : a < 256 := h a (by simp)
    have hb : b < 256 := h b (by simp)
    have hd : d < 256 := h d (by simp)
    rw [show btoaChunks [a, b, d] =
      sixToChar (a / 4) :: sixToChar (a % 4 * 16 + b / 16) ::
        sixToChar (b % 16 * 4 + d / 64) :: sixToChar (d % 64) ::
          btoaChunks [] from rfl] at hc
    rcases List.mem_cons.mp hc with hc | hc
    · exact hc ▸ sixToChar_ne_123 _ (by omega)
    rcases List.mem_cons.mp hc with hc | hc
    · exact hc ▸ sixToChar_ne_123 _ (by omega)
    rcases List.mem_cons.mp hc with hc | hc
    · exact hc ▸ sixToChar_ne_123 _ (by omega)
    rcases List.mem_cons.mp hc with hc | hc
    · exact hc ▸ sixToChar_ne_123 _ (by omega)
    · simp [btoaChunks] at hc
  | a :: b :: d :: e :: rest, h => by
    intro c hc
    have ha : a < 256 := h a (by simp)
    have hb : b < 256 := h b (by simp)
    have hd : d < 256 := h d (by simp)
    rw [show btoaChunks (a :: b :: d :: e :: rest) =
      sixToChar (a / 4) :: sixToChar (a % 4 * 16 + b / 16) ::
        sixToChar (b % 16 * 4 + d / 64) :: sixToChar (d % 64) ::
          btoaChunks (e :: rest) from rfl] at hc
    rcases List.mem_cons.mp hc with hc | hc
    · exact hc ▸ sixToChar_ne_123 _ (by omega)
    rcases List.mem_cons.mp hc with hc | hc
    · exact hc ▸ sixToChar_ne_123 _ (by omega)
    rcases List.mem_cons.mp hc with hc | hc
    · exact hc ▸ sixToChar_ne_123 _ (by omega)
    rcases List.mem_cons.mp hc with hc | hc
    · exact hc ▸ sixToChar_ne_123 _ (by omega)
    · exact btoaChunks_mem_ne_123 (e :: rest)
        (fun x hx => h x (List.mem_cons_of_mem _ (List.mem_cons_of_mem _
          (List.mem_cons_of_mem _ hx)))) c hc

theorem jsonParse_btoaChunks_not_obj (s : List Nat) (h256 : ∀ c ∈ s, c < 256)
    (ms : List (List Nat × Json)) : jsonParse (btoaChunks s) ≠ some (Json.obj ms) := by
  intro hp
  rw [jsonParse] at hp
  split at hp
  · next v r heq =>
    simp only [Option.some.injEq] at hp
    rw [hp] at heq
    obtain ⟨r2, hr2⟩ := parseVal_obj_head _ _ _ _ heq
    have h123 : (123 : Nat) ∈ btoaChunks s := by rw [hr2]; simp
    exact btoaChunks_mem_ne_123 s h256 123 h123 rfl
  · exact Option.noConfusion hp

/-! The claims. -/

/-- C1 counterexample: with obfuscation enabled, a structurally-cloneable
value containing a code unit above 255 (here the one-character string
U+0100) makes `btoa` throw inside `serialize`; `set` swallows the failure
and returns false, and the immediate `get` returns null rather than a
value deep-equal to the input. -/
theorem C1_counterexample :
    (WebStorage.set ⟨0, [112, 45], true, [107]⟩ 0 [] [97] (Json.str [256]) {}).1 = false ∧
    (WebStorage.get ⟨0, [112, 45], true, [107]⟩ 0
      (WebStorage.set ⟨0, [112, 45], true, [107]⟩ 0 [] [97] (Json.str [256]) {}).2.1
      [97] none).1 = none :=
  ⟨rfl, rfl⟩

/-- C1 (amended): whenever the write actually succeeds (`set` returned
true; always the case with obfuscation off, and with obfuscation on
exactly when the serialized envelope is within `btoa`'s Latin-1 range)
and the per-call obfuscation setting matches the engine's configured one,
`set(k, v)` followed immediately by `get(k)` returns a value deep-equal
(in the model: equal) to `v`, not the default/null. -/
theorem C1_set_get_roundtrip (cfg : StorageConfig) (now : Nat) (st : Store) (key : List Nat)
    (v : Json) (opts : SetOptions) (deflt : Option Json)
    (henc : opts.encrypt.getD cfg.encrypt = cfg.encrypt)
    (hs : (WebStorage.set cfg now st key v opts).1 = true) :
    (WebStorage.get cfg now (WebStorage.set cfg now st key v opts).2.1 key deflt).1 =
      some v := by
  rw [get_after_set cfg now now st key v opts deflt henc hs]
  rw [show (mkEnvelope cfg opts now v).expires =
    calculateExpires now (resolvedDuration cfg opts) from rfl]
  rw [isExpired_at_creation]
  simp

/-- C1 witness: a concrete successful round trip. -/
theorem C1_witness :
    (({} : SetOptions).encrypt.getD (⟨0, [112, 45], false, [107]⟩ : StorageConfig).encrypt =
      (⟨0, [112, 45], false, [107]⟩ : StorageConfig).encrypt) ∧
    (WebStorage.set ⟨0, [112, 45], false, [107]⟩ 5 [] [97]
      (Json.obj [([97], Json.num 1)]) {}).1 = true ∧
    (WebStorage.get ⟨0, [112, 45], false, [107]⟩ 5
      (WebStorage.set ⟨0, [112, 45], false, [107]⟩ 5 [] [97]
        (Json.obj [([97], Json.num 1)]) {}).2.1 [97] none).1 =
      some (Json.obj [([97], Json.num 1)]) :=
  ⟨rfl, rfl,
    C1_set_get_roundtrip ⟨0, [112, 45], false, [107]⟩ 5 [] [97]
      (Json.obj [([97], Json.num 1)]) {} none rfl rfl⟩

/-- C2 counterexample: `has` on a present, decodable, expired entry does
emit an event — the nested `remove` call emits `remove` — contradicting
the claim that no event of any kind is emitted. -/
theorem C2_counterexample :
    ¬((WebStorage.has ⟨0, [112], false, [107]⟩ 10
        [([112, 97], jsonStringify (itemToJson ⟨Json.num 1, some 5, 0⟩))] [97]).2.2 = []) := by
  intro h
  exact List.noConfusion (show (Ev.remove [97] :: ([] : List Ev)) = [] from h)

/-- C2 (amended): `has` on a present, decodable, expired entry deletes
the entry and returns false, emitting exactly one `remove` event (from
the internal `remove` call) and neither `get` nor `expired`. -/
theorem C2_has_expired (cfg : StorageConfig) (now : Nat) (st : Store) (key data : List Nat)
    (env : StorageItem)
    (hget : getItem st (getFullKey cfg key) = some data)
    (hd : data ≠ [])
    (hdec : deserialize data cfg.encrypt cfg.encryptKey = some (itemToJson env))
    (hexp : isExpired now env.expires = true) :
    WebStorage.has cfg now st key =
      (false, removeItem st (getFullKey cfg key), [Ev.remove key]) := by
  rw [has_stored cfg now st key data env hget hd hdec, if_pos hexp]

/-- C2 witness: a concrete expired entry swept by `has`. -/
theorem C2_witness :
    getItem [([112, 97], jsonStringify (itemToJson ⟨Json.num 1, some 5, 0⟩))]
      (getFullKey ⟨0, [112], false, [107]⟩ [97]) =
      some (jsonStringify (itemToJson ⟨Json.num 1, some 5, 0⟩)) ∧
    jsonStringify (itemToJson ⟨Json.num 1, some 5, 0⟩) ≠ [] ∧
    deserialize (jsonStringify (itemToJson ⟨Json.num 1, some 5, 0⟩)) false [107] =
      some (itemToJson ⟨Json.num 1, some 5, 0⟩) ∧
    isExpired 10 (some 5) = true ∧
    WebStorage.has ⟨0, [112], false, [107]⟩ 10
      [([112, 97], jsonStringify (itemToJson ⟨Json.num 1, some 5, 0⟩))] [97] =
      (false, removeItem [([112, 97], jsonStringify (itemToJson ⟨Json.num 1, some 5, 0⟩))]
        (getFullKey ⟨0, [112], false, [107]⟩ [97]), [Ev.remove [97]]) :=
  ⟨rfl, by decide, rfl, rfl,
    C2_has_expired ⟨0, [112], false, [107]⟩ 10 _ [97] _ ⟨Json.num 1, some 5, 0⟩
      rfl (by decide) rfl rfl⟩

/-- C3 counterexample: a write with per-call duration 0 is coerced to
"never" by the `|| undefined` in `set`; read back 1000 ms later the value
is still returned, although the claim says any time strictly after
`created + 0` is expired. -/
theorem C3_counterexample :
    (WebStorage.get ⟨0, [112, 45], false, [107]⟩ 1000
      (WebStorage.set ⟨0, [112, 45], false, [107]⟩ 0 [] [97] (Json.num 7)
        ⟨some 0, none⟩).2.1 [97] none).1 = some (Json.num 7) ∧
    some (Json.num 7) ≠ (none : Option Json) :=
  ⟨rfl, by simp⟩

/-- C3 (amended): a write whose resolved duration is none — default
duration unset or zero with no per-call duration, or a per-call duration
of zero — produces a never-expiring envelope returned at every later
read; a write with positive resolved duration `d` gets `expires =
created + d`, is returned at any `t ≤ created + d` (equality is not
expired), and at any `t > created + d` is treated as expired: the read
returns the default and deletes the entry. -/
theorem C3_expiry_policy (cfg : StorageConfig) (now t : Nat) (st : Store) (key : List Nat)
    (v : Json) (opts : SetOptions) (deflt : Option Json)
    (henc : opts.encrypt.getD cfg.encrypt = cfg.encrypt)
    (hs : (WebStorage.set cfg now st key v opts).1 = true) :
    (resolvedDuration cfg opts = none →
      (mkEnvelope cfg opts now v).expires = none ∧
      (WebStorage.get cfg t (WebStorage.set cfg now st key v opts).2.1 key deflt).1 =
        some v) ∧
    (∀ d, resolvedDuration cfg opts = some d →
      (mkEnvelope cfg opts now v).expires = some ((now : Int) + d) ∧
      (t ≤ now + d →
        (WebStorage.get cfg t (WebStorage.set cfg now st key v opts).2.1 key deflt).1 =
          some v) ∧
      (now + d < t →
        (WebStorage.get cfg t (WebStorage.set cfg now st key v opts).2.1 key deflt).1 =
          deflt ∧
        getItem
          (WebStorage.get cfg t (WebStorage.set cfg now st key v opts).2.1 key deflt).2.1
          (getFullKey cfg key) = none)) := by
  have hmain := get_after_set cfg now t st key v opts deflt henc hs
  constructor
  · intro h0
    have hexp : (mkEnvelope cfg opts now v).expires = none := by
      rw [show (mkEnvelope cfg opts now v).expires =
        calculateExpires now (resolvedDuration cfg opts) from rfl, h0]
      rfl
    refine ⟨hexp, ?_⟩
    rw [hmain, hexp]
    simp [isExpired]
  · intro d hd
    have hexp : (mkEnvelope cfg opts now v).expires = some ((now : Int) + d) := by
      rw [show (mkEnvelope cfg opts now v).expires =
        calculateExpires now (resolvedDuration cfg opts) from rfl, hd]
      rfl
    refine ⟨hexp, ?_, ?_⟩
    · intro hle
      rw [hmain, hexp]
      have hb : isExpired t (some ((now : Int) + d)) = false := by
        rw [isExpired]
        simp
        omega
      rw [hb]
      simp
    · intro hgt
      rw [hmain, hexp]
      have hb : isExpired t (some ((now : Int) + d)) = true := by
        rw [isExpired]
        simp
        omega
      rw [hb]
      refine ⟨rfl, ?_⟩
      exact getItem_removeItem_self _ _

/-- C3 witness: duration 10 written at time 0 is alive at 10 and expired
at 11 (where it is deleted), and a per-call duration 0 write never
expires. -/
theorem C3_witness :
    (((⟨some 10, none⟩ : SetOptions).encrypt.getD
      (⟨0, [112, 45], false, [107]⟩ : StorageConfig).encrypt) =
      (⟨0, [112, 45], false, [107]⟩ : StorageConfig).encrypt) ∧
    (WebStorage.set ⟨0, [112, 45], false, [107]⟩ 0 [] [97] (Json.num 7)
      ⟨some 10, none⟩).1 = true ∧
    (WebStorage.get ⟨0, [112, 45], false, [107]⟩ 10
      (WebStorage.set ⟨0, [112, 45], false, [107]⟩ 0 [] [97] (Json.num 7)
        ⟨some 10, none⟩).2.1 [97] none).1 = some (Json.num 7) ∧
    (WebStorage.get ⟨0, [112, 45], false, [107]⟩ 11
      (WebStorage.set ⟨0, [112, 45], false, [107]⟩ 0 [] [97] (Json.num 7)
        ⟨some 10, none⟩).2.1 [97] none).1 = none := by
  refine ⟨rfl, rfl, ?_, ?_⟩
  · exact ((C3_expiry_policy ⟨0, [112, 45], false, [107]⟩ 0 10 [] [97] (Json.num 7)
      ⟨some 10, none⟩ none rfl rfl).2 10 rfl).2.1 (by omega)
  · exact (((C3_expiry_policy ⟨0, [112, 45], false, [107]⟩ 0 11 [] [97] (Json.num 7)
      ⟨some 10, none⟩ none rfl rfl).2 10 rfl).2.2 (by omega)).1

/-- C4: every persisted envelope is the serialization of `mkEnvelope`,
whose `created` is the wall-clock time of that `set` call and whose
`expires`, when not the "never" marker, satisfies `created ≤ expires`. -/
theorem C4_envelope_invariant (cfg : StorageConfig) (opts : SetOptions) (now : Nat)
    (st : Store) (key : List Nat) (v : Json)
    (hs : (WebStorage.set cfg now st key v opts).1 = true) :
    (∃ data,
      serialize (itemToJson (mkEnvelope cfg opts now v)) (opts.encrypt.getD cfg.encrypt)
        cfg.encryptKey = some data ∧
      (WebStorage.set cfg now st key v opts).2.1 = setItem st (getFullKey cfg key) data) ∧
    (mkEnvelope cfg opts now v).created = now ∧
    (∀ e, (mkEnvelope cfg opts now v).expires = some e → (now : Int) ≤ e) := by
  obtain ⟨data, hser, hst, _⟩ := set_success cfg now st key v opts hs
  refine ⟨⟨data, hser, hst⟩, rfl, ?_⟩
  intro e he
  rw [show (mkEnvelope cfg opts now v).expires =
    calculateExpires now (resolvedDuration cfg opts) from rfl] at he
  cases hr : resolvedDuration cfg opts with
  | none => rw [hr] at he; exact absurd he (by rw [calculateExpires]; simp)
  | some d =>
    rw [hr, calculateExpires] at he
    simp at he
    omega

/-- C4 witness: a concrete write with duration 10 at time 3. -/
theorem C4_witness :
    (WebStorage.set ⟨0, [112, 45], false, [107]⟩ 3 [] [97] (Json.num 7)
      ⟨some 10, none⟩).1 = true ∧
    (mkEnvelope ⟨0, [112, 45], false, [107]⟩ ⟨some 10, none⟩ 3 (Json.num 7)).created = 3 ∧
    (∀ e, (mkEnvelope ⟨0, [112, 45], false, [107]⟩ ⟨some 10, none⟩ 3
      (Json.num 7)).expires = some e → (3 : Int) ≤ e) :=
  ⟨rfl,
    (C4_envelope_invariant ⟨0, [112, 45], false, [107]⟩ ⟨some 10, none⟩ 3 [] [97]
      (Json.num 7) rfl).2.1,
    (C4_envelope_invariant ⟨0, [112, 45], false, [107]⟩ ⟨some 10, none⟩ 3 [] [97]
      (Json.num 7) rfl).2.2⟩

/-- C5: for every state of the namespace, `getStats` counts satisfy
`total = expired + valid`; an entry that does not decode to an object
carrying an `expires` field contributes to `valid`. -/
theorem C5_stats_invariant (cfg : StorageConfig) (now : Nat) (st : Store) :
    (WebStorage.getStats cfg now st).total =
      (WebStorage.getStats cfg now st).expired + (WebStorage.getStats cfg now st).valid := by
  induction st with
  | nil => rfl
  | cons p ps ih =>
    rw [show WebStorage.getStats cfg now (p :: ps) =
      WebStorage.statsAdd (WebStorage.entryStats cfg now p)
        (WebStorage.getStats cfg now ps) from rfl]
    rw [WebStorage.statsAdd]
    simp only
    have h1 := entryStats_inv cfg now p
    omega

/-- C6 counterexample: a wrong key that repeats the right key (`abab` vs
`ab`) produces the same cycling keystream, so deserializing with it
returns the original value — neither a failure nor a structurally
different value. -/
theorem C6_counterexample :
    ([97, 98, 97, 98] : List Nat) ≠ [97, 98] ∧
    (serialize Json.null true [97, 98]).bind
      (fun ct => deserialize ct true [97, 98, 97, 98]) = some Json.null :=
  ⟨by decide, rfl⟩

/-- C6 (amended): for every value and non-empty key whose code units are
all below 256 (so the `btoa` step cannot throw),
`deserialize (serialize x true key) true key = x`; and deserializing the
ciphertext with any key always yields a value or a failure, never an
uncaught exception (`deserialize` is total — a wrong key may even yield
the original value when its keystream coincides, as the counterexample
shows). -/
theorem C6_obfuscation_roundtrip (x : Json) (key : List Nat) (hk : key ≠ [])
    (hk256 : ∀ c ∈ key, c < 256) (hx : latin1 x = true) :
    (serialize x true key).bind (fun ct => deserialize ct true key) = some x ∧
    (∀ ct k2, serialize x true key = some ct →
      deserialize ct true k2 = none ∨ ∃ y, deserialize ct true k2 = some y) := by
  constructor
  · have hser := serialize_latin1 x key hx hk256
    rw [hser]
    simp only [Option.some_bind]
    exact deserialize_serialize x true key _ hser
  · intro ct k2 _
    cases hd : deserialize ct true k2 with
    | none => exact Or.inl rfl
    | some y => exact Or.inr ⟨y, rfl⟩

/-- C6 witness: a concrete obfuscated round trip with key `key`. -/
theorem C6_witness :
    (([107, 101, 121] : List Nat) ≠ []) ∧
    (∀ c ∈ ([107, 101, 121] : List Nat), c < 256) ∧
    latin1 (Json.obj [([97], Json.str [104, 105])]) = true ∧
    (serialize (Json.obj [([97], Json.str [104, 105])]) true [107, 101, 121]).bind
      (fun ct => deserialize ct true [107, 101, 121]) =
      some (Json.obj [([97], Json.str [104, 105])]) :=
  ⟨by decide, by decide, rfl,
    (C6_obfuscation_roundtrip (Json.obj [([97], Json.str [104, 105])]) [107, 101, 121]
      (by decide) (by decide) rfl).1⟩

/-- C7: with mutually non-prefix prefixes, `A.clear()` removes exactly
the keys carrying A's prefix: A's entry is gone, B's entry survives and
`B.has(k2)` stays true, and every binding whose key lacks A's prefix is
untouched. -/
theorem C7_clear_prefix_scoped (cfgA cfgB : StorageConfig) (now : Nat) (st : Store)
    (k1 k2 : List Nat) (v1 v2 : Json) (st2 st3 : Store)
    (hAB : cfgA.keyPrefix.isPrefixOf cfgB.keyPrefix = false)
    (hBA : cfgB.keyPrefix.isPrefixOf cfgA.keyPrefix = false)
    (h2 : st2 = (WebStorage.set cfgB now
      (WebStorage.set cfgA now st k1 v1 {}).2.1 k2 v2 {}).2.1)
    (h3 : st3 = (WebStorage.clear cfgA st2).2.1)
    (hsB : (WebStorage.set cfgB now
      (WebStorage.set cfgA now st k1 v1 {}).2.1 k2 v2 {}).1 = true) :
    getItem st3 (getFullKey cfgA k1) = none ∧
    (WebStorage.has cfgB now st3 k2).1 = true ∧
    (∀ fk, cfgA.keyPrefix.isPrefixOf fk = false → getItem st3 fk = getItem st2 fk) := by
  have hfilter : st3 = st2.filter (fun p => !(cfgA.keyPrefix.isPrefixOf p.1)) := by
    rw [h3]
    rfl
  obtain ⟨data, hser, hst, _⟩ :=
    set_success cfgB now (WebStorage.set cfgA now st k1 v1 {}).2.1 k2 v2 {} hsB
  have hnotpref : cfgA.keyPrefix.isPrefixOf (getFullKey cfgB k2) = false :=
    not_prefix_of_other_append _ _ _ hAB hBA
  have hget2 : getItem st2 (getFullKey cfgB k2) = some data := by
    rw [h2, hst]
    exact getItem_setItem_self _ _ _
  have hget3 : getItem st3 (getFullKey cfgB k2) = some data := by
    rw [hfilter, getItem_filter_not_prefixed _ _ _ hnotpref]
    exact hget2
  refine ⟨?_, ?_, ?_⟩
  · rw [hfilter]
    exact getItem_filter_prefixed _ _ _ (isPrefixOf_append_self _ _)
  · have hdec : deserialize data cfgB.encrypt cfgB.encryptKey =
        some (itemToJson (mkEnvelope cfgB {} now v2)) :=
      deserialize_serialize _ _ _ _ hser
    have hd := serialize_ne_nil _ _ _ _ hser
    rw [has_stored cfgB now st3 k2 data (mkEnvelope cfgB {} now v2) hget3 hd hdec]
    rw [show (mkEnvelope cfgB {} now v2).expires =
      calculateExpires now (resolvedDuration cfgB {}) from rfl]
    rw [isExpired_at_creation]
    simp
  · intro fk hfk
    rw [hfilter]
    exact getItem_filter_not_prefixed _ _ _ hfk

/-- C7 witness: two engines with prefixes `a-` and `b-` over one
namespace. -/
theorem C7_witness :
    (([97, 45] : List Nat).isPrefixOf [98, 45] = false) ∧
    (([98, 45] : List Nat).isPrefixOf [97, 45] = false) ∧
    (WebStorage.set ⟨0, [98, 45], false, [107]⟩ 0
      (WebStorage.set ⟨0, [97, 45], false, [107]⟩ 0 [] [107, 49] (Json.num 1) {}).2.1
      [107, 50] (Json.num 2) {}).1 = true ∧
    getItem (WebStorage.clear ⟨0, [97, 45], false, [107]⟩
      (WebStorage.set ⟨0, [98, 45], false, [107]⟩ 0
        (WebStorage.set ⟨0, [97, 45], false, [107]⟩ 0 [] [107, 49] (Json.num 1) {}).2.1
        [107, 50] (Json.num 2) {}).2.1).2.1
      (getFullKey ⟨0, [97, 45], false, [107]⟩ [107, 49]) = none ∧
    (WebStorage.has ⟨0, [98, 45], false, [107]⟩ 0
      (WebStorage.clear ⟨0, [97, 45], false, [107]⟩
        (WebStorage.set ⟨0, [98, 45], false, [107]⟩ 0
          (WebStorage.set ⟨0, [97, 45], false, [107]⟩ 0 [] [107, 49] (Json.num 1) {}).2.1
          [107, 50] (Json.num 2) {}).2.1).2.1 [107, 50]).1 = true := by
  refine ⟨by decide, by decide, rfl, ?_, ?_⟩
  · exact (C7_clear_prefix_scoped ⟨0, [97, 45], false, [107]⟩ ⟨0, [98, 45], false, [107]⟩
      0 [] [107, 49] [107, 50] (Json.num 1) (Json.num 2) _ _ (by decide) (by decide)
      rfl rfl rfl).1
  · exact (C7_clear_prefix_scoped ⟨0, [97, 45], false, [107]⟩ ⟨0, [98, 45], false, [107]⟩
      0 [] [107, 49] [107, 50] (Json.num 1) (Json.num 2) _ _ (by decide) (by decide)
      rfl rfl rfl).2.1

theorem get_invalid (cfg : StorageConfig) (now : Nat) (st : Store) (key data : List Nat)
    (deflt : Option Json)
    (hget : getItem st (getFullKey cfg key) = some data)
    (hd : data ≠ [])
    (hinv : ∀ ms, deserialize data cfg.encrypt cfg.encryptKey = some (Json.obj ms) →
      getField ms valueKey = none) :
    WebStorage.get cfg now st key deflt = (deflt, st, []) := by
  rw [WebStorage.get, hget]
  simp only [if_neg hd]
  cases hdes : deserialize data cfg.encrypt cfg.encryptKey with
  | none => rfl
  | some j =>
    cases j with
    | obj ms => simp [hinv ms hdes]
    | null => rfl
    | boolean b => rfl
    | num n => rfl
    | str s => rfl
    | arr xs => rfl

theorem has_noexpires (cfg : StorageConfig) (now : Nat) (st : Store) (key data : List Nat)
    (hget : getItem st (getFullKey cfg key) = some data)
    (hd : data ≠ [])
    (hinv : ∀ ms, deserialize data cfg.encrypt cfg.encryptKey = some (Json.obj ms) →
      getField ms expiresKey = none) :
    WebStorage.has cfg now st key = (false, st, []) := by
  rw [WebStorage.has, hget]
  simp only [if_neg hd]
  cases hdes : deserialize data cfg.encrypt cfg.encryptKey with
  | none => rfl
  | some j =>
    cases j with
    | obj ms => simp [hinv ms hdes]
    | null => rfl
    | boolean b => rfl
    | num n => rfl
    | str s => rfl
    | arr xs => rfl

theorem expiredEntry_false_noexpires (cfg : StorageConfig) (now : Nat) (fk data : List Nat)
    (hinv : ∀ ms, deserialize data cfg.encrypt cfg.encryptKey = some (Json.obj ms) →
      getField ms expiresKey = none) :
    WebStorage.expiredEntry cfg now (fk, data) = false := by
  rw [WebStorage.expiredEntry]
  cases hdes : deserialize data cfg.encrypt cfg.encryptKey with
  | none => simp
  | some j =>
    cases j with
    | obj ms => simp [hinv ms hdes]
    | null => simp
    | boolean b => simp
    | num n => simp
    | str s => simp
    | arr xs => simp

theorem entryStats_valid_noexpires (cfg : StorageConfig) (now : Nat) (key data : List Nat)
    (hd : data ≠ [])
    (hinv : ∀ ms, deserialize data cfg.encrypt cfg.encryptKey = some (Json.obj ms) →
      getField ms expiresKey = none) :
    WebStorage.entryStats cfg now (getFullKey cfg key, data) =
      ⟨1, 0, 1, (getFullKey cfg key).length + data.length⟩ := by
  rw [WebStorage.entryStats]
  rw [if_pos ⟨isPrefixOf_append_self _ _, hd⟩]
  cases hdes : deserialize data cfg.encrypt cfg.encryptKey with
  | none => rfl
  | some j =>
    cases j with
    | obj ms => simp [hinv ms hdes]
    | null => rfl
    | boolean b => rfl
    | num n => rfl
    | str s => rfl
    | arr xs => rfl

theorem clearExpired_keeps (cfg : StorageConfig) (now : Nat) (st : Store)
    (key data : List Nat)
    (hget : getItem st (getFullKey cfg key) = some data)
    (hfalse : WebStorage.expiredEntry cfg now (getFullKey cfg key, data) = false) :
    getItem (WebStorage.clearExpired cfg now st).2.1 (getFullKey cfg key) = some data := by
  rw [show (WebStorage.clearExpired cfg now st).2.1 =
    st.filter (fun p => !(WebStorage.expiredEntry cfg now p)) from rfl]
  exact getItem_filter_keep _ st _ data hget hfalse

/-- C8 counterexample: the stored text `{"expires":0}` lacks a `value`
field — the claim's "failed structural parse" class — yet `clearExpired`
at time 1 deletes it (the claim says such entries are never deleted). -/
theorem C8_counterexample :
    (WebStorage.clearExpired ⟨0, [112], false, [107]⟩ 1
      [([112, 97], jsonStringify (Json.obj [(expiresKey, Json.num 0)]))]).2.1 = [] ∧
    ([([112, 97], jsonStringify (Json.obj [(expiresKey, Json.num 0)]))] : Store) ≠ [] :=
  ⟨rfl, by simp⟩

/-- C8 (amended): an entry that fails to decode or decodes to a
non-object is treated as absent everywhere: `get` returns the default,
`has` returns false, `clearExpired` does not delete it, and `getStats`
counts it as valid.  A decodable object missing only the `value` field
still yields the default from `get`, but `has`/`clearExpired`/`getStats`
judge it by its `expires` field alone: the absent-everywhere treatment
holds for it only when `expires` is also missing. -/
theorem C8_decode_failure (cfg : StorageConfig) (now : Nat) (st : Store)
    (key data : List Nat) (deflt : Option Json)
    (hget : getItem st (getFullKey cfg key) = some data)
    (hd : data ≠ []) :
    ((deserialize data cfg.encrypt cfg.encryptKey = none ∨
      (∀ ms, deserialize data cfg.encrypt cfg.encryptKey ≠ some (Json.obj ms))) →
      WebStorage.get cfg now st key deflt = (deflt, st, []) ∧
      WebStorage.has cfg now st key = (false, st, []) ∧
      WebStorage.expiredEntry cfg now (getFullKey cfg key, data) = false ∧
      getItem (WebStorage.clearExpired cfg now st).2.1 (getFullKey cfg key) = some data ∧
      WebStorage.entryStats cfg now (getFullKey cfg key, data) =
        ⟨1, 0, 1, (getFullKey cfg key).length + data.length⟩) ∧
    (∀ ms, deserialize data cfg.encrypt cfg.encryptKey = some (Json.obj ms) →
      (getField ms valueKey = none →
        WebStorage.get cfg now st key deflt = (deflt, st, [])) ∧
      (getField ms expiresKey = none →
        WebStorage.has cfg now st key = (false, st, []) ∧
        WebStorage.expiredEntry cfg now (getFullKey cfg key, data) = false ∧
        getItem (WebStorage.clearExpired cfg now st).2.1 (getFullKey cfg key) = some data ∧
        WebStorage.entryStats cfg now (getFullKey cfg key, data) =
          ⟨1, 0, 1, (getFullKey cfg key).length + data.length⟩)) := by
  constructor
  · intro hU
    have hne : ∀ ms, deserialize data cfg.encrypt cfg.encryptKey ≠ some (Json.obj ms) := by
      rcases hU with h | h
      · intro ms hc
        rw [h] at hc
        exact Option.noConfusion hc
      · exact h
    have hinvV : ∀ ms, deserialize data cfg.encrypt cfg.encryptKey = some (Json.obj ms) →
        getField ms valueKey = none := fun ms h => absurd h (hne ms)
    have hinvE : ∀ ms, deserialize data cfg.encrypt cfg.encryptKey = some (Json.obj ms) →
        getField ms expiresKey = none := fun ms h => absurd h (hne ms)
    have hfalse := expiredEntry_false_noexpires cfg now (getFullKey cfg key) data hinvE
    exact ⟨get_invalid cfg now st key data deflt hget hd hinvV,
      has_noexpires cfg now st key data hget hd hinvE,
      hfalse,
      clearExpired_keeps cfg now st key data hget hfalse,
      entryStats_valid_noexpires cfg now key data hd hinvE⟩
  · intro ms hdes
    constructor
    · intro hnoval
      refine get_invalid cfg now st key data deflt hget hd ?_
      intro ms2 h2
      rw [hdes] at h2
      simp only [Option.some.injEq, Json.obj.injEq] at h2
      rw [← h2]
      exact hnoval
    · intro hnoexp
      have hinvE : ∀ ms2, deserialize data cfg.encrypt cfg.encryptKey =
          some (Json.obj ms2) → getField ms2 expiresKey = none := by
        intro ms2 h2
        rw [hdes] at h2
        simp only [Option.some.injEq, Json.obj.injEq] at h2
        rw [← h2]
        exact hnoexp
      have hfalse := expiredEntry_false_noexpires cfg now (getFullKey cfg key) data hinvE
      exact ⟨has_noexpires cfg now st key data hget hd hinvE,
        hfalse,
        clearExpired_keeps cfg now st key data hget hfalse,
        entryStats_valid_noexpires cfg now key data hd hinvE⟩

/-- C8 witness: the stored text `k` is not JSON; `get` falls back to the
provided default and the entry is counted valid, kept by the sweep. -/
theorem C8_witness :
    getItem [([112, 97], [107])] (getFullKey ⟨0, [112], false, [100]⟩ [97]) = some [107] ∧
    ([107] : List Nat) ≠ [] ∧
    WebStorage.get ⟨0, [112], false, [100]⟩ 0 [([112, 97], [107])] [97]
      (some (Json.num 9)) = (some (Json.num 9), [([112, 97], [107])], []) ∧
    getItem (WebStorage.clearExpired ⟨0, [112], false, [100]⟩ 0
      [([112, 97], [107])]).2.1 (getFullKey ⟨0, [112], false, [100]⟩ [97]) = some [107] := by
  have h := C8_decode_failure ⟨0, [112], false, [100]⟩ 0 [([112, 97], [107])] [97] [107]
    (some (Json.num 9)) rfl (by decide)
  have hU := h.1 (Or.inl rfl)
  exact ⟨rfl, by decide, hU.1, hU.2.2.2.1⟩

/-- C9: a stored object that carries a `value` field but no `expires`
field is returned by `get` (missing `expires` compares as not expired)
while `has` returns false for the same key — so `has = false` does not
imply that `get` yields the default. -/
theorem C9_value_without_expires (cfg : StorageConfig) (now : Nat) (st : Store)
    (key : List Nat) (ms : List (List Nat × Json)) (v : Json) (deflt : Option Json)
    (henc : cfg.encrypt = false)
    (hget : getItem st (getFullKey cfg key) = some (jsonStringify (Json.obj ms)))
    (hval : getField ms valueKey = some v)
    (hnoexp : getField ms expiresKey = none) :
    (WebStorage.get cfg now st key deflt).1 = some v ∧
    (WebStorage.has cfg now st key).1 = false := by
  have hd := jsonStringify_ne_nil (Json.obj ms)
  have hdes : deserialize (jsonStringify (Json.obj ms)) cfg.encrypt cfg.encryptKey =
      some (Json.obj ms) := by
    rw [henc]
    exact jsonParse_stringify (Json.obj ms)
  constructor
  · rw [WebStorage.get, hget]
    simp only [if_neg hd]
    rw [hdes]
    simp [hval, hnoexp, jsExpiredField, deepClone_eq]
  · rw [WebStorage.has, hget]
    simp only [if_neg hd]
    rw [hdes]
    simp [hnoexp]

/-- C9 witness: stored text `{"value":1}`. -/
theorem C9_witness :
    ((⟨0, [112], false, [107]⟩ : StorageConfig).encrypt = false) ∧
    getItem [([112, 97], jsonStringify (Json.obj [(valueKey, Json.num 1)]))]
      (getFullKey ⟨0, [112], false, [107]⟩ [97]) =
      some (jsonStringify (Json.obj [(valueKey, Json.num 1)])) ∧
    getField [(valueKey, Json.num 1)] valueKey = some (Json.num 1) ∧
    getField [(valueKey, Json.num 1)] expiresKey = none ∧
    (WebStorage.get ⟨0, [112], false, [107]⟩ 3
      [([112, 97], jsonStringify (Json.obj [(valueKey, Json.num 1)]))] [97] none).1 =
      some (Json.num 1) ∧
    (WebStorage.has ⟨0, [112], false, [107]⟩ 3
      [([112, 97], jsonStringify (Json.obj [(valueKey, Json.num 1)]))] [97]).1 = false := by
  have h := C9_value_without_expires ⟨0, [112], false, [107]⟩ 3
    [([112, 97], jsonStringify (Json.obj [(valueKey, Json.num 1)]))] [97]
    [(valueKey, Json.num 1)] (Json.num 1) none rfl rfl rfl rfl
  exact ⟨rfl, rfl, rfl, rfl, h.1, h.2⟩

/-- C10: reads always deserialize with the engine's configured
obfuscation flag.  On an engine configured without obfuscation, an item
written with a per-call `encrypt: true` override is stored as base64
text, which can never parse as a JSON object, so `get` returns the
default/null instead of the stored value. -/
theorem C10_mismatched_obfuscation (cfg : StorageConfig) (now t : Nat) (st : Store)
    (key : List Nat) (v : Json) (opts : SetOptions) (deflt : Option Json)
    (henc : cfg.encrypt = false) (hoe : opts.encrypt = some true)
    (hs : (WebStorage.set cfg now st key v opts).1 = true) :
    (WebStorage.get cfg t (WebStorage.set cfg now st key v opts).2.1 key deflt).1 =
      deflt := by
  obtain ⟨data, hser, hst, _⟩ := set_success cfg now st key v opts hs
  rw [hoe] at hser
  simp only [Option.getD_some] at hser
  have hd := serialize_ne_nil _ _ _ _ hser
  have hser2 : encrypt (jsonStringify (itemToJson (mkEnvelope cfg opts now v)))
      cfg.encryptKey = some data := hser
  rw [encrypt, btoa] at hser2
  split at hser2
  · next h256 =>
    have hdata : data = btoaChunks (xorTransform
        (jsonStringify (itemToJson (mkEnvelope cfg opts now v))) cfg.encryptKey) := by
      simpa using hser2.symm
    have hget : getItem (WebStorage.set cfg now st key v opts).2.1 (getFullKey cfg key) =
        some data := by
      rw [hst]
      exact getItem_setItem_self _ _ _
    rw [WebStorage.get, hget]
    simp only [if_neg hd]
    rw [show deserialize data cfg.encrypt cfg.encryptKey =
      jsonParse data by rw [henc]; rfl]
    cases hj : jsonParse data with
    | none => rfl
    | some j =>
      cases j with
      | obj ms =>
        exfalso
        rw [hdata] at hj
        exact jsonParse_btoaChunks_not_obj _
          (by simpa [List.all_eq_true] using h256) ms hj
      | null => rfl
      | boolean b => rfl
      | num n => rfl
      | str s => rfl
      | arr xs => rfl
  · exact absurd hser2 (by simp)

/-- C10 witness: engine without obfuscation, write with `encrypt: true`
override, read back gives the supplied default. -/
theorem C10_witness :
    ((⟨0, [112], false, [107]⟩ : StorageConfig).encrypt = false) ∧
    ((⟨none, some true⟩ : SetOptions).encrypt = some true) ∧
    (WebStorage.set ⟨0, [112], false, [107]⟩ 0 [] [97] (Json.num 7)
      ⟨none, some true⟩).1 = true ∧
    (WebStorage.get ⟨0, [112], false, [107]⟩ 0
      (WebStorage.set ⟨0, [112], false, [107]⟩ 0 [] [97] (Json.num 7)
        ⟨none, some true⟩).2.1 [97] (some (Json.num 9))).1 = some (Json.num 9) :=
  ⟨rfl, rfl, rfl,
    C10_mismatched_obfuscation ⟨0, [112], false, [107]⟩ 0 0 [] [97] (Json.num 7)
      ⟨none, some true⟩ (some (Json.num 9)) rfl rfl rfl⟩
